import Mathlib

/-!
Verification of the tiling/stitching engine of the Data_preparation
repository (app/splitter.py and app/merger.py) against its
natural-language specification.

Conventions of the shallow embedding:
* Python ints are modelled by Nat / Int; Python float percentages and
  raster sample values are modelled by Rat (exact rational arithmetic in
  place of IEEE floats; round() is modelled as round-half-to-even on the
  exact rational value).
* Python strings are modelled by List Char (code points).
* numpy arrays are modelled by the NpArr structure: explicit dimensions
  plus a total indexing function; the dtype is abstracted to the one bit
  the code branches on (dtype == uint8).
* the image codec (PIL decode/encode, mode conversion, bilinear resize)
  is external to the repository and is treated as the spec treats it: an
  opaque capability.  Saving and re-decoding a tile with a lossless
  extension is the identity on samples; mode conversion and resizing are
  opaque parameters of the merge models.
* fallible code paths return Except String.
-/

/-- Model of the Python built-in round() on an exact rational value:
round-half-to-even.  Python round on a float rounds the binary float
half-to-even; here the argument is the exact rational. -/
def pyRound (q : ℚ) : ℤ :=
  let f : ℤ := ⌊q⌋
  if q - f < 1/2 then f
  else if (1 : ℚ)/2 < q - f then f + 1
  else if f % 2 = 0 then f else f + 1

/-- Model of the Python built-in range(0, n, step) for step greater
than 0: the multiples of step below n, in increasing order. -/
def pyRangeStep (n step : ℕ) : List ℕ :=
  (List.range ((n + step - 1) / step)).map (· * step)

/-- Model of int(round(tile_size * float(overlap_pct) / 100.0)) from
split_large_image (app/splitter.py line 236). -/
def overlapPx (tile_size : ℕ) (overlap_pct : ℚ) : ℤ :=
  pyRound ((tile_size : ℚ) * overlap_pct / 100)

/-- Model of step = tile_size if overlap_px <= 0 else max(1, tile_size -
overlap_px) from split_large_image (app/splitter.py line 237). -/
def stepPx (tile_size : ℕ) (opx : ℤ) : ℕ :=
  if opx ≤ 0 then tile_size else (max 1 ((tile_size : ℤ) - opx)).toNat

/-- A tile bounding box (y, x, y2, x2) in source pixel coordinates, as
built by split_large_image. -/
structure Box where
  y0 : ℕ
  x0 : ℕ
  y1 : ℕ
  x1 : ℕ

/-- Model of the coords list comprehension of split_large_image
(app/splitter.py lines 238-240):
coords = [(y, x, min(y + tile_size, H), min(x + tile_size, W))
          for y in range(0, H, step) for x in range(0, W, step)]. -/
def splitCoords (H W tile_size step : ℕ) : List Box :=
  (pyRangeStep H step).flatMap fun y =>
    (pyRangeStep W step).map fun x =>
      ⟨y, x, min (y + tile_size) H, min (x + tile_size) W⟩

/-- Model of the input validation at the top of split_large_image
(app/splitter.py lines 186-189).  These are the only checks the
function performs on tile_size and overlap_pct. -/
def splitCheck (tile_size : ℤ) (overlap_pct : ℚ) : Except String Unit :=
  if tile_size ≤ 0 then .error "tile_size must be positive."
  else if overlap_pct < 0 ∨ 100 ≤ overlap_pct then .error "overlap_pct must be in [0, <100)."
  else .ok ()

/-! Arithmetic facts about pyRangeStep and the step computation. -/

theorem le_ceilCount_mul (n step : ℕ) (hstep : 0 < step) :
    n ≤ ((n + step - 1) / step) * step := by
  cases n with
  | zero => simp
  | succ m =>
      have hrw : m + 1 + step - 1 = m + step := by omega
      rw [hrw, Nat.add_div_right m hstep, Nat.succ_mul]
      have h1 : m / step * step + m % step = m := Nat.div_add_mod' m step
      have h2 := Nat.mod_lt m hstep
      omega

theorem ceilCount_mul_le (n step : ℕ) (hstep : 0 < step) :
    ((n + step - 1) / step) * step ≤ n + step - 1 :=
  Nat.div_mul_le_self _ _

theorem mem_pyRangeStep {n step y : ℕ} (hstep : 0 < step) :
    y ∈ pyRangeStep n step ↔ ∃ k, y = k * step ∧ k * step < n := by
  unfold pyRangeStep
  simp only [List.mem_map, List.mem_range]
  constructor
  · rintro ⟨k, hk, rfl⟩
    refine ⟨k, rfl, ?_⟩
    have hmul : (k + 1) * step ≤ ((n + step - 1) / step) * step :=
      Nat.mul_le_mul_right step (Nat.succ_le.mpr hk)
    have hcmul := ceilCount_mul_le n step hstep
    have hexp : (k + 1) * step = k * step + step := Nat.succ_mul _ _
    omega
  · rintro ⟨k, rfl, hlt⟩
    refine ⟨k, ?_, rfl⟩
    by_contra hge
    push_neg at hge
    have h1 : ((n + step - 1) / step) * step ≤ k * step :=
      Nat.mul_le_mul_right step hge
    have h2 := le_ceilCount_mul n step hstep
    omega

theorem stepPx_pos {tile_size : ℕ} (opx : ℤ) (hts : 0 < tile_size) :
    0 < stepPx tile_size opx := by
  unfold stepPx
  split
  · exact hts
  · have h1 : (1 : ℤ) ≤ max 1 ((tile_size : ℤ) - opx) := le_max_left _ _
    omega

theorem stepPx_le {tile_size : ℕ} {opx : ℤ} (hts : 0 < tile_size) :
    stepPx tile_size opx ≤ tile_size := by
  unfold stepPx
  split
  · exact le_rfl
  · rename_i hpos
    push_neg at hpos
    have h1 : max 1 ((tile_size : ℤ) - opx) ≤ (tile_size : ℤ) := by
      apply max_le
      · exact_mod_cast hts
      · omega
    omega

theorem mem_splitCoords {H W ts st : ℕ} {b : Box} :
    b ∈ splitCoords H W ts st ↔
      ∃ y ∈ pyRangeStep H st, ∃ x ∈ pyRangeStep W st,
        b = ⟨y, x, min (y + ts) H, min (x + ts) W⟩ := by
  unfold splitCoords
  simp only [List.mem_flatMap, List.mem_map]
  constructor
  · rintro ⟨y, hy, x, hx, rfl⟩
    exact ⟨y, hy, x, hx, rfl⟩
  · rintro ⟨y, hy, x, hx, rfl⟩
    exact ⟨y, hy, x, hx, rfl⟩

/-- Helper: for a positive step at most tile_size, every pixel row
index below n is covered by the range element (r / st) * st. -/
theorem range_covers {n st ts r : ℕ} (hst : 0 < st) (hle : st ≤ ts)
    (hr : r < n) :
    ∃ y ∈ pyRangeStep n st, y ≤ r ∧ r < min (y + ts) n := by
  refine ⟨(r / st) * st, ?_, ?_, ?_⟩
  · exact (mem_pyRangeStep hst).2 ⟨r / st, rfl, lt_of_le_of_lt (Nat.div_mul_le_self r st) hr⟩
  · exact Nat.div_mul_le_self r st
  · have h1 : r / st * st + r % st = r := Nat.div_add_mod' r st
    have h2 := Nat.mod_lt r hst
    have h3 : r < (r / st) * st + ts := by omega
    exact lt_min h3 hr

/-- C1.  For every H, W, tile_size greater than 0 and overlap_pct in
[0, 100), the coords grid built inside split_large_image covers the
raster exactly: every pixel lies in at least one box, and every box
satisfies 0 ≤ y0 < y1 ≤ H and 0 ≤ x0 < x1 ≤ W. -/
theorem C1_grid_covers_exactly (H W ts : ℕ) (pct : ℚ)
    (hH : 0 < H) (hW : 0 < W) (hts : 0 < ts)
    (hpct0 : 0 ≤ pct) (hpct1 : pct < 100) :
    (∀ r c, r < H → c < W →
      ∃ b ∈ splitCoords H W ts (stepPx ts (overlapPx ts pct)),
        b.y0 ≤ r ∧ r < b.y1 ∧ b.x0 ≤ c ∧ c < b.x1) ∧
    (∀ b ∈ splitCoords H W ts (stepPx ts (overlapPx ts pct)),
      b.y0 < b.y1 ∧ b.y1 ≤ H ∧ b.x0 < b.x1 ∧ b.x1 ≤ W) := by
  set st := stepPx ts (overlapPx ts pct) with hst
  have hstpos : 0 < st := stepPx_pos _ hts
  have hstle : st ≤ ts := stepPx_le hts
  constructor
  · intro r c hr hc
    obtain ⟨y, hy, hyr, hry⟩ := range_covers hstpos hstle hr
    obtain ⟨x, hx, hxc, hcx⟩ := range_covers hstpos hstle hc
    refine ⟨⟨y, x, min (y + ts) H, min (x + ts) W⟩, ?_, hyr, hry, hxc, hcx⟩
    exact mem_splitCoords.2 ⟨y, hy, x, hx, rfl⟩
  · intro b hb
    obtain ⟨y, hy, x, hx, rfl⟩ := mem_splitCoords.1 hb
    obtain ⟨ky, hkyeq, hky⟩ := (mem_pyRangeStep hstpos).1 hy
    obtain ⟨kx, hkxeq, hkx⟩ := (mem_pyRangeStep hstpos).1 hx
    subst hkyeq
    subst hkxeq
    dsimp only
    refine ⟨?_, min_le_right _ _, ?_, min_le_right _ _⟩
    · exact lt_min (by omega) hky
    · exact lt_min (by omega) hkx

/-- Witness for C1 at H = 3, W = 3, tile_size = 2, overlap_pct = 0. -/
theorem C1_grid_covers_exactly_witness :
    (0 < 3 ∧ (0 : ℚ) ≤ 0 ∧ (0 : ℚ) < 100) ∧
    ((∀ r c, r < 3 → c < 3 →
      ∃ b ∈ splitCoords 3 3 2 (stepPx 2 (overlapPx 2 0)),
        b.y0 ≤ r ∧ r < b.y1 ∧ b.x0 ≤ c ∧ c < b.x1) ∧
    (∀ b ∈ splitCoords 3 3 2 (stepPx 2 (overlapPx 2 0)),
      b.y0 < b.y1 ∧ b.y1 ≤ 3 ∧ b.x0 < b.x1 ∧ b.x1 ≤ 3)) :=
  ⟨⟨by decide, le_refl 0, by norm_num⟩,
    C1_grid_covers_exactly 3 3 2 0 (by decide) (by decide) (by decide)
      (le_refl 0) (by norm_num)⟩

/-! C6: split_large_image validation versus overlap_px.  The code checks
only tile_size > 0 and overlap_pct in [0, 100); there is no check of
overlap_px against tile_size anywhere in split_large_image. -/

theorem floor_ninetynine_tenths : ⌊(99 : ℚ)/10⌋ = 9 := by
  rw [Int.floor_eq_iff]
  constructor <;> norm_num

/-- C6 counterexample.  With tile_size = 10 and overlap_pct = 99 the
computed overlap_px is round(9.9) = 10, which is at least tile_size;
yet the validation of split_large_image succeeds and the grid step is
silently clamped to max(1, 10 - 10) = 1: no error of any kind is
raised. -/
theorem C6_no_config_error_cx :
    overlapPx 10 99 = 10 ∧ (10 : ℤ) ≤ overlapPx 10 99 ∧
    splitCheck 10 99 = .ok () ∧ stepPx 10 (overlapPx 10 99) = 1 := by
  have hq : ((10 : ℕ) : ℚ) * 99 / 100 = 99/10 := by norm_num
  have ho : overlapPx 10 99 = 10 := by
    unfold overlapPx pyRound
    rw [hq, floor_ninetynine_tenths]
    norm_num
  refine ⟨ho, by rw [ho], by rfl, by rw [ho]; rfl⟩

/-- C6 amended.  For every tile_size greater than 0 and overlap_pct in
[0, 100), split_large_image raises no error at all: its validation
succeeds, and even when overlap_px is at least tile_size it proceeds
with the step clamped to max(1, tile_size - overlap_px) = 1 instead of
failing. -/
theorem C6_degenerate_step_clamped (ts : ℕ) (pct : ℚ)
    (hts : 0 < ts) (hpct0 : 0 ≤ pct) (hpct1 : pct < 100) :
    splitCheck (ts : ℤ) pct = .ok () ∧
    0 < stepPx ts (overlapPx ts pct) ∧
    ((ts : ℤ) ≤ overlapPx ts pct → stepPx ts (overlapPx ts pct) = 1) := by
  refine ⟨?_, stepPx_pos _ hts, ?_⟩
  · unfold splitCheck
    rw [if_neg (by omega), if_neg (by push_neg; exact ⟨hpct0, hpct1⟩)]
  · intro hge
    unfold stepPx
    rw [if_neg (by omega)]
    have h1 : max 1 ((ts : ℤ) - overlapPx ts pct) = 1 := by
      apply max_eq_left
      omega
    rw [h1]
    rfl

/-- Witness for C6 amended at tile_size = 10, overlap_pct = 99. -/
theorem C6_degenerate_step_clamped_witness :
    (0 < 10 ∧ (0 : ℚ) ≤ 99 ∧ (99 : ℚ) < 100) ∧
    (splitCheck (10 : ℤ) 99 = .ok () ∧
     0 < stepPx 10 (overlapPx 10 99) ∧
     ((10 : ℤ) ≤ overlapPx 10 99 → stepPx 10 (overlapPx 10 99) = 1)) :=
  ⟨⟨by decide, by norm_num, by norm_num⟩,
    C6_degenerate_step_clamped 10 99 (by decide) (by norm_num) (by norm_num)⟩

/-! Model of numpy arrays and of _normalize_to_uint8
(app/splitter.py lines 53-79). -/

/-- Model of a numpy array as produced by np.array on a PIL crop:
height, width, a 2-D/3-D flag, channel count (by convention C = 1 when
the array is 2-D), the one dtype bit the code branches on
(dtype == np.uint8), and a total sample-indexing function
(row, column, channel). -/
structure NpArr where
  H : ℕ
  W : ℕ
  is3D : Bool
  C : ℕ
  u8 : Bool
  px : ℕ → ℕ → ℕ → ℚ

/-- Minimum of a nonempty list of rationals (numpy ndarray.min; the
empty-list default 0 is never reached under the positivity hypotheses
used below). -/
def listMinQ : List ℚ → ℚ
  | [] => 0
  | x :: xs => xs.foldl min x

/-- Maximum of a nonempty list of rationals (numpy ndarray.max). -/
def listMaxQ : List ℚ → ℚ
  | [] => 0
  | x :: xs => xs.foldl max x

/-- Sample values of one channel of an array, row-major. -/
def chanVals (a : NpArr) (ch : ℕ) : List ℚ :=
  (List.range a.H).flatMap fun r => (List.range a.W).map fun c => a.px r c ch

/-- Per-channel minimum, as computed by arr[..., c].min(). -/
def chanMin (a : NpArr) (ch : ℕ) : ℚ := listMinQ (chanVals a ch)

/-- Per-channel maximum, as computed by arr[..., c].max(). -/
def chanMax (a : NpArr) (ch : ℕ) : ℚ := listMaxQ (chanVals a ch)

/-- Model of np.clip(a, 0, 255) on one sample. -/
def npClip (q : ℚ) : ℚ := min (max q 0) 255

/-- Truncation toward zero, as the C cast in ndarray.astype does. -/
def intTrunc (q : ℚ) : ℤ := if q < 0 then -⌊-q⌋ else ⌊q⌋

/-- Model of float32 -> uint8 conversion in astype(np.uint8): truncate
toward zero, reduce modulo 256. -/
def npCastU8 (q : ℚ) : ℚ := ((intTrunc q % 256 : ℤ) : ℚ)

/-- Model of the per-channel body of _normalize_to_uint8
(app/splitter.py lines 60-78): minmax stretch when max > min, an
all-zero channel when max == min, hard clip otherwise.  The source has
a 2-D branch and a 3-D branch computing the same per-channel formula;
with the C = 1 convention for 2-D arrays this single definition covers
both. -/
def normalizeChanArr (a : NpArr) (mode : String) (ch : ℕ) : ℕ → ℕ → ℚ :=
  if mode = "minmax" then
    let mn := chanMin a ch
    let mx := chanMax a ch
    if mn < mx then fun r c => (a.px r c ch - mn) / (mx - mn) * 255
    else fun _ _ => 0
  else fun r c => npClip (a.px r c ch)

/-- Model of _normalize_to_uint8 (app/splitter.py lines 53-79):
uint8 input passes through unchanged; an unknown mode string falls back
to minmax; otherwise every channel is normalized independently and cast
to uint8. -/
def normalizeToU8 (a : NpArr) (mode : String) : NpArr :=
  if a.u8 then a
  else
    let m := if mode = "minmax" ∨ mode = "clip" then mode else "minmax"
    { a with u8 := true, px := fun r c ch => npCastU8 (normalizeChanArr a m ch r c) }

/-! Order facts about listMinQ / listMaxQ. -/

theorem foldl_min_le_acc (l : List ℚ) (acc : ℚ) : l.foldl min acc ≤ acc := by
  induction l generalizing acc with
  | nil => exact le_rfl
  | cons x xs ih =>
      exact le_trans (ih (min acc x)) (min_le_left _ _)

theorem foldl_min_le_of_mem {l : List ℚ} {x : ℚ} (acc : ℚ) (hx : x ∈ l) :
    l.foldl min acc ≤ x := by
  induction l generalizing acc with
  | nil => cases hx
  | cons y ys ih =>
      rcases List.mem_cons.1 hx with rfl | hmem
      · exact le_trans (foldl_min_le_acc ys (min acc x)) (min_le_right _ _)
      · exact ih (min acc y) hmem

theorem listMinQ_le_of_mem {l : List ℚ} {x : ℚ} (hx : x ∈ l) : listMinQ l ≤ x := by
  cases l with
  | nil => cases hx
  | cons y ys =>
      rcases List.mem_cons.1 hx with rfl | hmem
      · exact foldl_min_le_acc ys x
      · exact foldl_min_le_of_mem y hmem

theorem acc_le_foldl_max (l : List ℚ) (acc : ℚ) : acc ≤ l.foldl max acc := by
  induction l generalizing acc with
  | nil => exact le_rfl
  | cons x xs ih =>
      exact le_trans (le_max_left _ _) (ih (max acc x))

theorem le_foldl_max_of_mem {l : List ℚ} {x : ℚ} (acc : ℚ) (hx : x ∈ l) :
    x ≤ l.foldl max acc := by
  induction l generalizing acc with
  | nil => cases hx
  | cons y ys ih =>
      rcases List.mem_cons.1 hx with rfl | hmem
      · exact le_trans (le_max_right _ _) (acc_le_foldl_max ys (max acc x))
      · exact ih (max acc y) hmem

theorem le_listMaxQ_of_mem {l : List ℚ} {x : ℚ} (hx : x ∈ l) : x ≤ listMaxQ l := by
  cases l with
  | nil => cases hx
  | cons y ys =>
      rcases List.mem_cons.1 hx with rfl | hmem
      · exact acc_le_foldl_max ys x
      · exact le_foldl_max_of_mem y hmem

theorem mem_chanVals {a : NpArr} {ch r c : ℕ} (hr : r < a.H) (hc : c < a.W) :
    a.px r c ch ∈ chanVals a ch := by
  unfold chanVals
  exact List.mem_flatMap.2 ⟨r, List.mem_range.2 hr,
    List.mem_map.2 ⟨c, List.mem_range.2 hc, rfl⟩⟩

theorem chanMin_le {a : NpArr} {ch r c : ℕ} (hr : r < a.H) (hc : c < a.W) :
    chanMin a ch ≤ a.px r c ch :=
  listMinQ_le_of_mem (mem_chanVals hr hc)

theorem le_chanMax {a : NpArr} {ch r c : ℕ} (hr : r < a.H) (hc : c < a.W) :
    a.px r c ch ≤ chanMax a ch :=
  le_listMaxQ_of_mem (mem_chanVals hr hc)

/-- For a sample in [0, 255], the uint8 cast is plain floor. -/
theorem npCastU8_of_bounds {q : ℚ} (h0 : 0 ≤ q) (h1 : q ≤ 255) :
    npCastU8 q = ((⌊q⌋ : ℤ) : ℚ) := by
  unfold npCastU8 intTrunc
  rw [if_neg (by exact not_lt.2 h0)]
  have hf0 : (0 : ℤ) ≤ ⌊q⌋ := Int.floor_nonneg.2 h0
  have hf1 : ⌊q⌋ ≤ 255 := by
    have := Int.floor_le_floor h1
    simpa using this
  rw [Int.emod_eq_of_lt hf0 (by omega)]

/-- Pointwise value of minmax normalization on a non-uint8 array: the
code floors (truncates) the stretched value, it does not round it. -/
theorem normalizeToU8_minmax_px (a : NpArr) (ch r c : ℕ)
    (hu8 : a.u8 = false) (hr : r < a.H) (hc : c < a.W) :
    (normalizeToU8 a "minmax").px r c ch =
      (if chanMin a ch < chanMax a ch
       then ((⌊(a.px r c ch - chanMin a ch) / (chanMax a ch - chanMin a ch) * 255⌋ : ℤ) : ℚ)
       else 0) := by
  simp only [normalizeToU8, hu8, Bool.false_eq_true, if_false, ite_self]
  unfold normalizeChanArr
  rw [if_pos rfl]
  by_cases hlt : chanMin a ch < chanMax a ch
  · rw [if_pos hlt, if_pos hlt]
    set mn := chanMin a ch
    set mx := chanMax a ch
    have hnum : 0 ≤ a.px r c ch - mn := sub_nonneg.2 (chanMin_le hr hc)
    have hden : 0 < mx - mn := sub_pos.2 hlt
    have h0 : 0 ≤ (a.px r c ch - mn) / (mx - mn) * 255 :=
      mul_nonneg (div_nonneg hnum (le_of_lt hden)) (by norm_num)
    have h1 : (a.px r c ch - mn) / (mx - mn) * 255 ≤ 255 := by
      have hq : (a.px r c ch - mn) / (mx - mn) ≤ 1 :=
        (div_le_one hden).2 (sub_le_sub_right (le_chanMax hr hc) mn)
      calc (a.px r c ch - mn) / (mx - mn) * 255 ≤ 1 * 255 :=
            mul_le_mul_of_nonneg_right hq (by norm_num)
        _ = 255 := by norm_num
    exact npCastU8_of_bounds h0 h1
  · rw [if_neg hlt, if_neg hlt]
    simp [npCastU8, intTrunc]

/-- A 1 by 3 single-channel non-uint8 array with samples 0, 1, 2. -/
def arr012 : NpArr :=
  ⟨1, 3, false, 1, false, fun _ c _ => if c = 0 then 0 else if c = 1 then 1 else 2⟩

/-- C4 counterexample.  On the 1 by 3 array with samples 0, 1, 2, the
minmax-stretched middle sample is (1 - 0) / (2 - 0) * 255 = 127.5; the
code (astype(np.uint8), a truncation) produces 127, while the claimed
round(127.5) is 128, so the output is not round((v - min)/(max - min)
* 255). -/
theorem C4_minmax_rounds_cx :
    (normalizeToU8 arr012 "minmax").px 0 1 0 = 127 ∧
    (pyRound ((arr012.px 0 1 0 - chanMin arr012 0) /
      (chanMax arr012 0 - chanMin arr012 0) * 255) : ℚ) = 128 ∧
    (normalizeToU8 arr012 "minmax").px 0 1 0 ≠
      (pyRound ((arr012.px 0 1 0 - chanMin arr012 0) /
        (chanMax arr012 0 - chanMin arr012 0) * 255) : ℚ) := by
  have hmn : chanMin arr012 0 = 0 := rfl
  have hmx : chanMax arr012 0 = 2 := rfl
  have hpx : arr012.px 0 1 0 = 1 := rfl
  have hval : (arr012.px 0 1 0 - chanMin arr012 0) /
      (chanMax arr012 0 - chanMin arr012 0) * 255 = 255/2 := by
    rw [hpx, hmn, hmx]; norm_num
  have hfl : ⌊(255 : ℚ)/2⌋ = 127 := by
    rw [Int.floor_eq_iff]
    constructor <;> norm_num
  have hleft : (normalizeToU8 arr012 "minmax").px 0 1 0 = 127 := by
    rw [normalizeToU8_minmax_px arr012 0 0 1 rfl (by decide) (by decide)]
    rw [if_pos (by rw [hmn, hmx]; norm_num), hval, hfl]
    norm_num
  have hright : (pyRound ((arr012.px 0 1 0 - chanMin arr012 0) /
      (chanMax arr012 0 - chanMin arr012 0) * 255) : ℚ) = 128 := by
    rw [hval]
    unfold pyRound
    rw [hfl]
    norm_num
  exact ⟨hleft, hright, by rw [hleft, hright]; norm_num⟩

/-- C4 amended.  For every non-uint8 crop and channel ch, minmax
normalization computes the channel output independently of all other
channels as the TRUNCATION floor((v - min)/(max - min) * 255) when
max > min (not the rounding the spec states), and an all-zero channel
when max == min, with min and max taken over channel ch alone. -/
theorem C4_minmax_per_channel_trunc (a : NpArr) (ch r c : ℕ)
    (hu8 : a.u8 = false) (hr : r < a.H) (hc : c < a.W) :
    (normalizeToU8 a "minmax").px r c ch =
      (if chanMin a ch < chanMax a ch
       then ((⌊(a.px r c ch - chanMin a ch) / (chanMax a ch - chanMin a ch) * 255⌋ : ℤ) : ℚ)
       else 0) ∧
    ∀ b : NpArr, b.u8 = false → b.H = a.H → b.W = a.W →
      (∀ r' c', b.px r' c' ch = a.px r' c' ch) →
      (normalizeToU8 b "minmax").px r c ch = (normalizeToU8 a "minmax").px r c ch := by
  refine ⟨normalizeToU8_minmax_px a ch r c hu8 hr hc, ?_⟩
  intro b hbu8 hbH hbW hbpx
  have hcv : chanVals b ch = chanVals a ch := by
    unfold chanVals
    rw [hbH, hbW]
    have hfun : (fun r' => (List.range a.W).map fun c' => b.px r' c' ch) =
        (fun r' => (List.range a.W).map fun c' => a.px r' c' ch) := by
      funext r'
      simp only [hbpx]
    rw [hfun]
  have hmn : chanMin b ch = chanMin a ch := congrArg listMinQ hcv
  have hmx : chanMax b ch = chanMax a ch := congrArg listMaxQ hcv
  rw [normalizeToU8_minmax_px b ch r c hbu8 (by omega) (by omega),
      normalizeToU8_minmax_px a ch r c hu8 hr hc,
      hmn, hmx, hbpx r c]

/-- Witness for C4 amended at the concrete array arr012, channel 0,
sample (0, 1). -/
theorem C4_minmax_per_channel_trunc_witness :
    (arr012.u8 = false ∧ 0 < arr012.H ∧ 1 < arr012.W) ∧
    ((normalizeToU8 arr012 "minmax").px 0 1 0 =
      (if chanMin arr012 0 < chanMax arr012 0
       then ((⌊(arr012.px 0 1 0 - chanMin arr012 0) /
          (chanMax arr012 0 - chanMin arr012 0) * 255⌋ : ℤ) : ℚ)
       else 0) ∧
    ∀ b : NpArr, b.u8 = false → b.H = arr012.H → b.W = arr012.W →
      (∀ r' c', b.px r' c' 0 = arr012.px r' c' 0) →
      (normalizeToU8 b "minmax").px 0 1 0 = (normalizeToU8 arr012 "minmax").px 0 1 0) :=
  ⟨⟨rfl, by decide, by decide⟩,
    C4_minmax_per_channel_trunc arr012 0 0 1 rfl (by decide) (by decide)⟩

/-! Model of the band-selection logic of _extract_crop_as_uint8
(app/splitter.py lines 122-151). -/

/-- Model of the Python built-in max() on a list of ints: none models
the ValueError raised on an empty sequence. -/
def pyListMax : List ℤ → Option ℤ
  | [] => none
  | x :: xs => some (xs.foldl max x)

/-- Model of Python/numpy indexing of a sequence of length n with a
possibly negative index: valid iff -n <= i < n, negatives wrap;
none models IndexError. -/
def pyIdx (n : ℕ) (i : ℤ) : Option ℕ :=
  if 0 ≤ i then (if i < (n : ℤ) then some i.toNat else none)
  else (if 0 ≤ i + n then some (i + n).toNat else none)

/-- Resolution of a whole index list (parts[i] for i in selected_bands,
and the numpy fancy index arr[:, :, selected_bands]). -/
def pySelect (n : ℕ) (s : List ℤ) : Option (List ℕ) := s.mapM (pyIdx n)

/-- Boolean success test for an Except value. -/
def exOk {ε α : Type} : Except ε α → Bool
  | .ok _ => true
  | .error _ => false

/-- Model of the PIL channel-selection try block of
_extract_crop_as_uint8 (app/splitter.py lines 131-145).  The whole
block is wrapped in try/except with a bare pass, so every failure path
(max() on an empty list, an IndexError from parts[i], or Image.merge
called with a band count other than 1, 3 or at least 4) leaves the crop
unchanged.  crop.split() yields one band per channel, so the length
test len(parts) >= max(selected_bands) + 1 is modelled against C. -/
def pilStage (a : NpArr) (sel : Option (List ℤ)) : NpArr :=
  match sel with
  | none => a
  | some s =>
    match pyListMax s with
    | none => a
    | some m =>
      if m + 1 ≤ (a.C : ℤ) then
        match pySelect a.C s with
        | none => a
        | some js =>
          if s.length = 1 then
            { a with is3D := false, C := 1, px := fun r c _ => a.px r c (js.headD 0) }
          else if s.length = 3 then
            { a with is3D := true, C := 3, px := fun r c ch => a.px r c (js.getD ch 0) }
          else if s.length = 4 then
            { a with is3D := true, C := 4, px := fun r c ch => a.px r c (js.getD ch 0) }
          else if 4 < s.length then
            { a with is3D := true, C := 4, px := fun r c ch => a.px r c ((js.take 4).getD ch 0) }
          else a
      else a

/-- Model of the numpy selection of _extract_crop_as_uint8
(app/splitter.py lines 148-149): arr[:, :, selected_bands] applied only
when arr.ndim == 3 and arr.shape[2] >= max(selected_bands) + 1.  This
line is NOT inside a try block: an empty selection list or an index
below -C raises and propagates (split_large_image then wraps it in a
generic RuntimeError for the tile, not a band-index error). -/
def arrStage (a : NpArr) (sel : Option (List ℤ)) : Except String NpArr :=
  if a.is3D then
    match sel with
    | none => .ok a
    | some s =>
      match pyListMax s with
      | none => .error "ValueError: max() arg is an empty sequence"
      | some m =>
        if m + 1 ≤ (a.C : ℤ) then
          match pySelect a.C s with
          | none => .error "IndexError: index out of bounds"
          | some js => .ok { a with C := s.length, px := fun r c ch => a.px r c (js.getD ch 0) }
        else .ok a
  else .ok a

/-- The two band-selection stages of _extract_crop_as_uint8 in source
order: the PIL try block, then the numpy fancy index on np.array(crop). -/
def bandStages (a : NpArr) (sel : Option (List ℤ)) : Except String NpArr :=
  arrStage (pilStage a sel) sel

/-- A concrete 1 by 1 four-channel uint8 crop. -/
def crop4 : NpArr :=
  ⟨1, 1, true, 4, true, fun _ _ ch => if ch = 0 then 10 else if ch = 1 then 11
    else if ch = 2 then 12 else 13⟩

/-- C5 counterexample.  Selecting band index 4 on the 4-channel crop
does NOT fail with a band-index error: both selection stages silently
skip (the guard arr.shape[2] >= max(selected_bands) + 1 is false) and
the crop passes through with all 4 channels intact.  The validating
helper _apply_band_selection, which would raise, is never called by
_extract_crop_as_uint8. -/
theorem C5_band_index_error_cx :
    bandStages crop4 (some [4]) = .ok crop4 ∧
    exOk (bandStages crop4 (some [4])) = true := ⟨rfl, rfl⟩

theorem pilStage_skip {a : NpArr} {s : List ℤ} {m : ℤ}
    (hm : pyListMax s = some m) (hle : (a.C : ℤ) ≤ m) :
    pilStage a (some s) = a := by
  simp only [pilStage, hm]
  rw [if_neg (show ¬ (m + 1 ≤ (a.C : ℤ)) by omega)]

theorem arrStage_skip {a : NpArr} {s : List ℤ} {m : ℤ}
    (hm : pyListMax s = some m) (hle : (a.C : ℤ) ≤ m) :
    arrStage a (some s) = .ok a := by
  simp only [arrStage, hm]
  cases h3 : a.is3D with
  | false => simp [h3]
  | true =>
      simp only [h3, if_pos rfl]
      rw [if_neg (show ¬ (m + 1 ≤ (a.C : ℤ)) by omega)]
      simp

/-- C5 amended.  In _extract_crop_as_uint8: a selection whose maximum
index is at least the channel count is silently skipped (the tile keeps
all channels, no error); the selection [0,2] on a 4-channel crop yields
a 2-channel crop with channels 0 and 2; duplicate indices are accepted
(not rejected), duplicating channels; a negative index of at least -C
wraps around Python-style; and only an index below -C raises, as a
generic IndexError that split_large_image wraps in a RuntimeError, not
a band-index error. -/
theorem C5_band_selection_behavior :
    (∀ (a : NpArr) (s : List ℤ) (m : ℤ), pyListMax s = some m → (a.C : ℤ) ≤ m →
      bandStages a (some s) = .ok a) ∧
    (∀ (a : NpArr), a.is3D = true → a.C = 4 →
      ∃ b, bandStages a (some [0, 2]) = .ok b ∧ b.C = 2 ∧
        ∀ r c, b.px r c 0 = a.px r c 0 ∧ b.px r c 1 = a.px r c 2) ∧
    (∀ (a : NpArr), a.is3D = true → a.C = 4 →
      ∃ b, bandStages a (some [3, 3]) = .ok b ∧ b.C = 2 ∧
        ∀ r c, b.px r c 0 = a.px r c 3 ∧ b.px r c 1 = a.px r c 3) ∧
    (∀ (a : NpArr), a.is3D = true → a.C = 4 →
      ∃ b, bandStages a (some [-1]) = .ok b ∧ b.C = 1 ∧ b.is3D = false ∧
        ∀ r c ch, b.px r c ch = a.px r c 3) ∧
    (∀ (a : NpArr), a.is3D = true → a.C = 4 →
      bandStages a (some [-5]) = .error "IndexError: index out of bounds") := by
  refine ⟨?_, ?_, ?_, ?_, ?_⟩
  · intro a s m hm hle
    rw [bandStages, pilStage_skip hm hle, arrStage_skip hm hle]
  · intro a h3 hC
    obtain ⟨H, W, i3, C, u8, px⟩ := a
    simp only at h3 hC
    subst h3
    subst hC
    exact ⟨_, rfl, rfl, fun r c => ⟨rfl, rfl⟩⟩
  · intro a h3 hC
    obtain ⟨H, W, i3, C, u8, px⟩ := a
    simp only at h3 hC
    subst h3
    subst hC
    exact ⟨_, rfl, rfl, fun r c => ⟨rfl, rfl⟩⟩
  · intro a h3 hC
    obtain ⟨H, W, i3, C, u8, px⟩ := a
    simp only at h3 hC
    subst h3
    subst hC
    exact ⟨_, rfl, rfl, rfl, fun r c ch => rfl⟩
  · intro a h3 hC
    obtain ⟨H, W, i3, C, u8, px⟩ := a
    simp only at h3 hC
    subst h3
    subst hC
    rfl

/-- Witness for C5 amended, applying the silent-skip part at the
concrete crop crop4 with selection [4] and the 2-channel part at crop4
with selection [0, 2]. -/
theorem C5_band_selection_behavior_witness :
    (pyListMax [4] = some 4 ∧ ((crop4.C : ℤ) ≤ 4) ∧ crop4.is3D = true ∧ crop4.C = 4) ∧
    (bandStages crop4 (some [4]) = .ok crop4 ∧
     ∃ b, bandStages crop4 (some [0, 2]) = .ok b ∧ b.C = 2 ∧
       ∀ r c, b.px r c 0 = crop4.px r c 0 ∧ b.px r c 1 = crop4.px r c 2) :=
  ⟨⟨rfl, by decide, rfl, rfl⟩,
    C5_band_selection_behavior.1 crop4 [4] 4 rfl (by decide),
    C5_band_selection_behavior.2.1 crop4 rfl rfl⟩

/-! Model of the folder-based merge (app/merger.py lines 14-111).
Python strings are List Char; the PIL mode of a decoded tile is carried
as a List Char label, and PIL convert() between modes is an opaque
parameter, as is the pixel type P of one decoded sample. -/

/-- Decimal digit character. -/
def digitChar (d : ℕ) : Char :=
  match d with
  | 0 => '0' | 1 => '1' | 2 => '2' | 3 => '3' | 4 => '4'
  | 5 => '5' | 6 => '6' | 7 => '7' | 8 => '8' | _ => '9'

/-- Fuel-driven decimal rendering helper (structural, so it reduces in
the kernel). -/
def natStrAux : ℕ → ℕ → List Char
  | 0, _ => []
  | fuel + 1, n =>
      if n < 10 then [digitChar n]
      else natStrAux fuel (n / 10) ++ [digitChar (n % 10)]

/-- Decimal rendering of a natural, as Python str formatting produces
for the {y} and {x} tokens. -/
def natStr (n : ℕ) : List Char := natStrAux (n + 1) n

/-- Value of a most-significant-first digit string. -/
def digitsVal (l : List Char) : ℕ :=
  l.foldl (fun acc c => acc * 10 + (c.toNat - 48)) 0

/-- Code-point lexicographic string comparison, the order Python
list.sort() uses on str. -/
def charListLe : List Char → List Char → Bool
  | [], _ => true
  | _ :: _, [] => false
  | a :: as, b :: bs =>
      if a.toNat < b.toNat then true
      else if b.toNat < a.toNat then false
      else charListLe as bs

/-- Model of str.lower() (code points in our names are ASCII). -/
def pyLower (l : List Char) : List Char := l.map Char.toLower

/-- Model of str.endswith(t). -/
def endsWithB (s t : List Char) : Bool := decide (t <:+ s)

/-- Model of the regex of app/merger.py line 14,
  .*_(<digits>)_(<digits>).<alnum ext> anchored at the end,
as used by _extract_xy_from_name: with a greedy leading .*, a name
matches iff it ends with a dot followed by a nonempty alphanumeric run,
preceded by a nonempty digit run, an underscore, a nonempty digit run
and another underscore.  Returns (x, y) — group 2 is x, group 1 is y. -/
def parseYX (name : List Char) : Option (ℕ × ℕ) :=
  let r0 := name.reverse
  if r0.takeWhile Char.isAlphanum = [] then none else
  match r0.dropWhile Char.isAlphanum with
  | c1 :: r2 =>
    if c1 = '.' then
      let xsr := r2.takeWhile Char.isDigit
      if xsr = [] then none else
      match r2.dropWhile Char.isDigit with
      | c2 :: r4 =>
        if c2 = '_' then
          let ysr := r4.takeWhile Char.isDigit
          if ysr = [] then none else
          match r4.dropWhile Char.isDigit with
          | c3 :: _ =>
            if c3 = '_' then some (digitsVal xsr.reverse, digitsVal ysr.reverse)
            else none
          | [] => none
        else none
      | [] => none
    else none
  | [] => none

/-- The image filename extensions accepted by _scan_tiles
(app/merger.py line 24). -/
def imageExts : List (List Char) :=
  [".png".data, ".jpg".data, ".jpeg".data, ".tif".data, ".tiff".data,
   ".bmp".data, ".webp".data]

/-- Model of the filename filter of _scan_tiles:
fn.lower().endswith((".png", ...)). -/
def isImageName (name : List Char) : Bool :=
  imageExts.any fun e => endsWithB (pyLower name) e

/-- A tile file as the merge sees it: its basename, its decoded size,
its decoded PIL mode, and its decoded samples. -/
structure FTile (P : Type) where
  name : List Char
  w : ℕ
  h : ℕ
  mode : List Char
  px : ℕ → ℕ → P

/-- Sorting key used by _scan_tiles: paths.sort(), lexicographic. -/
def nameLe {P : Type} (f g : FTile P) : Prop :=
  charListLe f.name g.name = true

instance {P : Type} : DecidableRel (@nameLe P) :=
  fun f g => inferInstanceAs (Decidable (charListLe f.name g.name = true))

/-- Model of the deterministic sort of _scan_tiles.  Python sort is a
stable sort by the lexicographic order; List.insertionSort with the
same total preorder computes the same list. -/
def sortTiles {P : Type} (files : List (FTile P)) : List (FTile P) :=
  List.insertionSort nameLe files

/-- Model of the target-mode choice of merge_tiles
(app/merger.py lines 90-95). -/
def targetModeOf (hint : List Char) : List Char :=
  if hint = "L".data ∨ hint = "I;16".data ∨ hint = "I;16B".data ∨
     hint = "I;16L".data ∨ hint = "I".data ∨ hint = "F".data then "L".data
  else if hint = "RGBA".data ∨ hint = "LA".data then "RGBA".data
  else "RGB".data

/-- Model of the canvas-size loop of _estimate_canvas_size
(app/merger.py lines 57-65): tw and th are the size of the FIRST file
only; every matched file contributes (x + tw, y + th). -/
def estFold {P : Type} (tw th : ℕ) : List (FTile P) → ℤ × ℤ → ℤ × ℤ
  | [], acc => acc
  | f :: rest, acc =>
      match parseYX f.name with
      | none => estFold tw th rest acc
      | some (x, y) =>
          estFold tw th rest (max acc.1 ((x : ℤ) + tw), max acc.2 ((y : ℤ) + th))

/-- Model of the fallback grid packing of _estimate_canvas_size
(app/merger.py lines 67-72), reached only when no filename matches.
int(n ** 0.5 + 0.999) is modelled as Nat.sqrt (n - 1) + 1, its value
for every practical tile count; no theorem below reaches this branch. -/
def fallbackGrid (n tw th : ℕ) : ℤ × ℤ :=
  let cols := Nat.sqrt (n - 1) + 1
  let rows := (n + cols - 1) / cols
  (((cols * tw : ℕ) : ℤ), ((rows * th : ℕ) : ℤ))

/-- Model of one iteration of the paste loop of merge_tiles
(app/merger.py lines 99-108): skip names that do not match, convert
the tile to the target mode if its mode differs, paste at (x, y) with
last write winning. -/
def pasteTile {P : Type}
    (convert : List Char → List Char → (ℕ → ℕ → P) → ℕ → ℕ → P)
    (target : List Char) (canvas : ℕ → ℕ → P) (f : FTile P) : ℕ → ℕ → P :=
  match parseYX f.name with
  | none => canvas
  | some (x, y) =>
      let im := if f.mode = target then f.px else convert f.mode target f.px
      fun rr cc =>
        if y ≤ rr ∧ rr < y + f.h ∧ x ≤ cc ∧ cc < x + f.w
        then im (rr - y) (cc - x) else canvas rr cc

/-- Model of merge_tiles (app/merger.py lines 77-111): scan and sort
the folder, estimate the canvas from the first file's size, choose the
target mode and background from the first file's mode, then paste all
matched tiles in sorted order. -/
def mergeTilesF {P : Type}
    (convert : List Char → List Char → (ℕ → ℕ → P) → ℕ → ℕ → P)
    (bgOf : List Char → P) (files0 : List (FTile P)) :
    Except String (ℤ × ℤ × (ℕ → ℕ → P)) :=
  let files := sortTiles (files0.filter fun f => isImageName f.name)
  match files with
  | [] => .error "No tiles found in the selected folder."
  | f0 :: _ =>
      let p := estFold f0.w f0.h files (0, 0)
      let dims := if p.1 = 0 ∨ p.2 = 0 then fallbackGrid files.length f0.w f0.h else p
      let target := targetModeOf f0.mode
      let canvas := files.foldl (pasteTile convert target) (fun _ _ => bgOf target)
      .ok (dims.1, dims.2, canvas)

/-- Dimensions of a merge result ((0, 0) on error). -/
def mergeDimsF {P : Type} (e : Except String (ℤ × ℤ × (ℕ → ℕ → P))) : ℤ × ℤ :=
  match e with
  | .ok (w, h, _) => (w, h)
  | .error _ => (0, 0)

/-- Canvas of a merge result (constant background on error; unused). -/
def mergeCanvasF {P : Type} (bg : P) (e : Except String (ℤ × ℤ × (ℕ → ℕ → P))) :
    ℕ → ℕ → P :=
  match e with
  | .ok (_, _, cv) => cv
  | .error _ => fun _ _ => bg

/-- Formalization of the SPEC's canvas formula for folder merge: the
maximum over matched files of (x + tile_width, y + tile_height) where
each tile contributes ITS OWN decoded width and height. -/
def specEstFold {P : Type} : List (FTile P) → ℤ × ℤ → ℤ × ℤ
  | [], acc => acc
  | f :: rest, acc =>
      match parseYX f.name with
      | none => specEstFold rest acc
      | some (x, y) =>
          specEstFold rest (max acc.1 ((x : ℤ) + f.w), max acc.2 ((y : ℤ) + f.h))

/-! Monotonicity facts about estFold. -/

theorem estFold_ge_acc {P : Type} (tw th : ℕ) (l : List (FTile P)) (acc : ℤ × ℤ) :
    acc.1 ≤ (estFold tw th l acc).1 ∧ acc.2 ≤ (estFold tw th l acc).2 := by
  induction l generalizing acc with
  | nil => exact ⟨le_rfl, le_rfl⟩
  | cons f rest ih =>
      simp only [estFold]
      cases hp : parseYX f.name with
      | none => exact ih acc
      | some xy =>
          obtain ⟨x, y⟩ := xy
          refine ⟨le_trans (le_max_left _ _) (ih _).1, le_trans (le_max_left _ _) (ih _).2⟩

theorem estFold_ge_mem {P : Type} (tw th : ℕ) {l : List (FTile P)} {f : FTile P}
    {x y : ℕ} (hf : f ∈ l) (hp : parseYX f.name = some (x, y)) (acc : ℤ × ℤ) :
    (x : ℤ) + tw ≤ (estFold tw th l acc).1 ∧ (y : ℤ) + th ≤ (estFold tw th l acc).2 := by
  induction l generalizing acc with
  | nil => cases hf
  | cons g rest ih =>
      simp only [estFold]
      rcases List.mem_cons.1 hf with rfl | hmem
      · rw [hp]
        exact ⟨le_trans (le_max_right _ _) (estFold_ge_acc tw th rest _).1,
               le_trans (le_max_right _ _) (estFold_ge_acc tw th rest _).2⟩
      · cases hq : parseYX g.name with
        | none => exact ih hmem acc
        | some xy =>
            obtain ⟨x2, y2⟩ := xy
            exact ih hmem _

/-- Identity mode conversion (used where pixel content is irrelevant). -/
def convId {P : Type} : List Char → List Char → (ℕ → ℕ → P) → ℕ → ℕ → P :=
  fun _ _ p => p

/-- Trivial background chooser over the unit pixel type. -/
def bgUnit : List Char → Unit := fun _ => ()

/-- A 2 by 2 tile at grid position y = 0, x = 0. -/
def tileA : FTile Unit := ⟨"a_0_0.png".data, 2, 2, "RGB".data, fun _ _ => ()⟩

/-- A 1 by 1 tile at grid position y = 0, x = 2. -/
def tileB : FTile Unit := ⟨"b_0_2.png".data, 1, 1, "RGB".data, fun _ _ => ()⟩

/-- C3 counterexample.  On a folder holding a 2 by 2 tile at x = 0 and
a 1 by 1 tile at x = 2, the spec's per-tile formula gives canvas width
max(0 + 2, 2 + 1) = 3, but merge_tiles produces width 4:
_estimate_canvas_size decodes only files[0] and reuses its size 2 for
every file, so the 1 by 1 boundary tile contributes 2 + 2 = 4. -/
theorem C3_canvas_own_size_cx :
    mergeDimsF (mergeTilesF convId bgUnit [tileA, tileB]) = (4, 2) ∧
    specEstFold [tileA, tileB] (0, 0) = (3, 2) ∧
    mergeDimsF (mergeTilesF convId bgUnit [tileA, tileB]) ≠
      specEstFold [tileA, tileB] (0, 0) := by
  refine ⟨by decide, by decide, by decide⟩

/-- C3 amended.  In folder-mode merge the canvas size is the maximum
over filename-matched tiles of (x + w0, y + h0) where (w0, h0) is the
decoded size of the FIRST scanned file only; the other tiles' own sizes
are never decoded for the estimate (boundary tiles may be smaller, and
are then over-counted, as the counterexample shows). -/
theorem C3_canvas_uses_first_tile_size {P : Type}
    (convert : List Char → List Char → (ℕ → ℕ → P) → ℕ → ℕ → P)
    (bgOf : List Char → P) (files0 : List (FTile P))
    (f0 : FTile P) (rest : List (FTile P))
    (hsort : sortTiles (files0.filter fun f => isImageName f.name) = f0 :: rest)
    (hw : 1 ≤ f0.w) (hh : 1 ≤ f0.h)
    (hmatch : ∃ f ∈ f0 :: rest, ∃ x y, parseYX f.name = some (x, y)) :
    mergeDimsF (mergeTilesF convert bgOf files0) =
      estFold f0.w f0.h (f0 :: rest) (0, 0) := by
  obtain ⟨f, hf, x, y, hp⟩ := hmatch
  have hbound := estFold_ge_mem f0.w f0.h hf hp (0, 0)
  have hno : ¬ ((estFold f0.w f0.h (f0 :: rest) (0, 0)).1 = 0 ∨
      (estFold f0.w f0.h (f0 :: rest) (0, 0)).2 = 0) := by
    push_neg
    constructor <;> [skip; skip] <;> omega
  simp only [mergeTilesF, hsort]
  rw [if_neg hno]
  rfl

/-- Witness for C3 amended at the two-tile folder of the counterexample. -/
theorem C3_canvas_uses_first_tile_size_witness :
    (sortTiles ([tileA, tileB].filter fun f => isImageName f.name) = tileA :: [tileB] ∧
     1 ≤ tileA.w ∧ 1 ≤ tileA.h ∧
     ∃ f ∈ tileA :: [tileB], ∃ x y, parseYX f.name = some (x, y)) ∧
    mergeDimsF (mergeTilesF convId bgUnit [tileA, tileB]) =
      estFold tileA.w tileA.h (tileA :: [tileB]) (0, 0) :=
  ⟨⟨rfl, by decide, by decide, tileA, List.mem_cons_self _ _, 0, 0, by decide⟩,
    C3_canvas_uses_first_tile_size convId bgUnit [tileA, tileB] tileA [tileB]
      rfl (by decide) (by decide)
      ⟨tileA, List.mem_cons_self _ _, 0, 0, by decide⟩⟩

/-- C9.  In folder-mode merge, when two matched tiles cover the same
pixel region, the final canvas value at every shared pixel equals the
decoded value of the tile whose filename comes later in lexicographic
order (last write wins), never a blend: merge_tiles pastes in sorted
filename order and paste overwrites.  Stated for two same-size tiles
at the same (y, x) whose shared mode is its own merge target (so no
mode conversion is applied), scanned in either folder order. -/
theorem C9_last_write_wins {P : Type}
    (convert : List Char → List Char → (ℕ → ℕ → P) → ℕ → ℕ → P)
    (bgOf : List Char → P)
    (t1 t2 : FTile P) (x y : ℕ) (l : List (FTile P))
    (hle12 : charListLe t1.name t2.name = true)
    (hle21 : charListLe t2.name t1.name = false)
    (himg1 : isImageName t1.name = true) (himg2 : isImageName t2.name = true)
    (hp1 : parseYX t1.name = some (x, y)) (hp2 : parseYX t2.name = some (x, y))
    (hw : t1.w = t2.w) (hh : t1.h = t2.h) (hw1 : 1 ≤ t2.w) (hh1 : 1 ≤ t2.h)
    (hm : t1.mode = t2.mode) (hmt : targetModeOf t2.mode = t2.mode)
    (hl : l = [t1, t2] ∨ l = [t2, t1]) :
    ∃ Wc Hc canvas, mergeTilesF convert bgOf l = .ok (Wc, Hc, canvas) ∧
      ∀ r c, r < t2.h → c < t2.w → canvas (y + r) (x + c) = t2.px r c := by
  have hsorted : sortTiles (List.filter (fun f => isImageName f.name) l) = [t1, t2] := by
    rcases hl with rfl | rfl
    · simp only [List.filter, himg1, himg2, sortTiles, List.insertionSort,
        List.orderedInsert]
      rw [if_pos (show nameLe t1 t2 from hle12)]
    · simp only [List.filter, himg1, himg2, sortTiles, List.insertionSort,
        List.orderedInsert]
      rw [if_neg (show ¬ nameLe t2 t1 from fun h => by
        rw [nameLe, hle21] at h; exact Bool.false_ne_true h)]
  have h0w : (0 : ℤ) ≤ (x : ℤ) + t1.w := by positivity
  have h0h : (0 : ℤ) ≤ (y : ℤ) + t1.h := by positivity
  have hest : estFold t1.w t1.h [t1, t2] (0, 0) = ((x : ℤ) + t1.w, (y : ℤ) + t1.h) := by
    simp only [estFold, hp1, hp2]
    rw [max_eq_right h0w, max_eq_right h0h, max_self, max_self]
  have htgt : targetModeOf t1.mode = t2.mode := by rw [hm, hmt]
  simp only [mergeTilesF, hsorted, hest, htgt]
  rw [if_neg (show ¬ ((x : ℤ) + t1.w = 0 ∨ (y : ℤ) + t1.h = 0) by
    push_neg
    constructor <;> [skip; skip] <;> omega)]
  refine ⟨_, _, _, rfl, ?_⟩
  intro r c hr hc
  simp only [List.foldl, pasteTile, hp2]
  rw [if_pos (show y ≤ y + r ∧ y + r < y + t2.h ∧ x ≤ x + c ∧ x + c < x + t2.w by omega)]
  simp [Nat.add_sub_cancel_left]

/-- A 1 by 1 tile at (0, 0) with sample 5. -/
def tileP : FTile ℚ := ⟨"p_0_0.png".data, 1, 1, "RGB".data, fun _ _ => 5⟩

/-- A 1 by 1 tile at (0, 0) with sample 9, later in filename order. -/
def tileQ : FTile ℚ := ⟨"q_0_0.png".data, 1, 1, "RGB".data, fun _ _ => 9⟩

/-- Witness for C9: two overlapping 1 by 1 tiles; the merged canvas
keeps the later file's sample. -/
theorem C9_last_write_wins_witness :
    (charListLe tileP.name tileQ.name = true ∧
     charListLe tileQ.name tileP.name = false ∧
     isImageName tileP.name = true ∧ isImageName tileQ.name = true ∧
     parseYX tileP.name = some (0, 0) ∧ parseYX tileQ.name = some (0, 0) ∧
     tileP.w = tileQ.w ∧ tileP.h = tileQ.h ∧ 1 ≤ tileQ.w ∧ 1 ≤ tileQ.h ∧
     tileP.mode = tileQ.mode ∧ targetModeOf tileQ.mode = tileQ.mode) ∧
    (∃ Wc Hc canvas, mergeTilesF convId (fun _ => (0 : ℚ)) [tileP, tileQ] =
        .ok (Wc, Hc, canvas) ∧
      ∀ r c, r < tileQ.h → c < tileQ.w → canvas (0 + r) (0 + c) = tileQ.px r c) :=
  ⟨⟨by decide, by decide, by decide, by decide, by decide, by decide,
    by decide, by decide, by decide, by decide, by decide, by decide⟩,
    C9_last_write_wins convId (fun _ => (0 : ℚ)) tileP tileQ 0 0 [tileP, tileQ]
      (by decide) (by decide) (by decide) (by decide) (by decide) (by decide)
      (by decide) (by decide) (by decide) (by decide) (by decide) (by decide)
      (Or.inl rfl)⟩

/-! Model of the manifest-based merge (app/merger.py lines 121-226). -/

/-- The hard-coded required columns of _read_manifest
(app/merger.py line 121).  Note t1_path is required literally,
whatever path column the caller asks merge_tiles_from_manifest to use. -/
def requiredCols : List String := ["x0", "y0", "w", "h", "t1_path"]

/-- Model of the header check of _read_manifest (app/merger.py lines
131-134): missing = [c for c in _REQUIRED_COLS if c not in header]. -/
def readManifestCheck (header : List String) : Except String Unit :=
  let missing := requiredCols.filter fun c => !(header.contains c)
  if missing.isEmpty then .ok () else .error "Manifest is missing required columns."

/-- The path-column names the SPEC says are accepted. -/
def specPathCols : List String := ["t1_path", "t2_path", "path"]

/-- Formalization of the SPEC's schema rule: x0, y0, w, h plus any one
of the accepted path-column names. -/
def specSchemaOk (header : List String) : Bool :=
  (["x0", "y0", "w", "h"].all fun c => header.contains c) &&
  (specPathCols.any fun c => header.contains c)

/-- One parsed manifest row: the four geometry cells as produced by
int(float(cell)) (none models a non-numeric cell), the content of the
chosen path column (empty models a missing or empty cell), and the fold
cell. -/
structure MRow where
  x0 : Option ℤ
  y0 : Option ℤ
  w : Option ℤ
  h : Option ℤ
  path : List Char
  fold : List Char

/-- Model of str.strip(). -/
def pyStrip (l : List Char) : List Char :=
  ((l.dropWhile Char.isWhitespace).reverse.dropWhile Char.isWhitespace).reverse

/-- The four geometry values of a row, if all parse. -/
def rowGeom (r : MRow) : Option (ℤ × ℤ × ℤ × ℤ) :=
  match r.x0, r.y0, r.w, r.h with
  | some a, some b, some c, some d => some (a, b, c, d)
  | _, _, _, _ => none

/-- Model of the optional fold filtering of merge_tiles_from_manifest
(app/merger.py lines 169-172); none models an absent or empty filter. -/
def selectRows (rows : List MRow) (foldFilter : Option (List Char)) :
    Except String (List MRow) :=
  match foldFilter with
  | none => .ok rows
  | some ff =>
      let rs := rows.filter fun r => pyLower r.fold == pyLower ff
      if rs.isEmpty then .error "No rows found for fold in manifest." else .ok rs

/-- Model of the canvas-size loop of merge_tiles_from_manifest
(app/merger.py lines 174-191): every selected row must parse
numerically (otherwise the WHOLE merge raises), the maxima of
(x0 + w, y0 + h) accumulate from 0, and the first nonempty stripped
path is remembered for mode inference.  File existence is not
consulted here. -/
def canvasScan : List MRow → (ℤ × ℤ × Option (List Char)) →
    Except String (ℤ × ℤ × Option (List Char))
  | [], acc => .ok acc
  | r :: rs, acc =>
      match rowGeom r with
      | none => .error "Manifest x0/y0/w/h must be numeric."
      | some (x0, y0, w, h) =>
          let first :=
            match acc.2.2 with
            | some s => some s
            | none =>
                let cand := pyStrip r.path
                if cand.isEmpty then none else some cand
          canvasScan rs (max acc.1 (x0 + w), max acc.2.1 (y0 + h), first)

/-- A decodable image file on disk, as the manifest merge sees it. -/
structure ImgT (P : Type) where
  w : ℕ
  h : ℕ
  mode : List Char
  px : ℕ → ℕ → P

/-- Model of the default background of merge_tiles_from_manifest
(app/merger.py lines 197-198): the explicit background argument if
given, else the per-target-mode zero tuple (abstracted by bgOf). -/
def resolvedBg {P : Type} (background : Option P) (bgOf : List Char → P)
    (target : List Char) : P :=
  match background with
  | some b => b
  | none => bgOf target

/-- Model of one iteration of the paste loop of
merge_tiles_from_manifest (app/merger.py lines 202-223): rows with an
empty or unresolvable path are skipped, geometry is re-parsed (a parse
failure skips, though the canvas loop already required it to parse),
the tile is converted to the target mode if needed, resized to the
manifest's declared (w, h) if its decoded size disagrees, and pasted
at (x0, y0) with last write winning. -/
def pasteRow {P : Type} (fs : List Char → Option (ImgT P))
    (convert : List Char → List Char → (ℕ → ℕ → P) → ℕ → ℕ → P)
    (resize : (ℕ → ℕ → P) → ℕ × ℕ → ℤ × ℤ → ℕ → ℕ → P)
    (target : List Char) (canvas : ℕ → ℕ → P) (r : MRow) : ℕ → ℕ → P :=
  let imgPath := pyStrip r.path
  if imgPath.isEmpty then canvas
  else
    match fs imgPath with
    | none => canvas
    | some t =>
        match rowGeom r with
        | none => canvas
        | some (x0, y0, w, h) =>
            let im0 := if t.mode = target then t.px else convert t.mode target t.px
            let im := if (w, h) = ((t.w : ℤ), (t.h : ℤ)) then im0
                      else resize im0 (t.w, t.h) (w, h)
            fun rr cc =>
              if x0 ≤ (cc : ℤ) ∧ (cc : ℤ) < x0 + w ∧ y0 ≤ (rr : ℤ) ∧ (rr : ℤ) < y0 + h
              then im ((rr : ℤ) - y0).toNat ((cc : ℤ) - x0).toNat
              else canvas rr cc

/-- Model of merge_tiles_from_manifest (app/merger.py lines 152-226):
read (nonempty) rows, filter by fold, run the canvas-size loop, infer
the target mode from the FIRST nonempty path (opening that file, so an
unresolvable first path is fatal), then paste the rows in manifest
order over the background canvas.  _infer_target_mode maps modes
exactly as the folder merge does, so targetModeOf is reused. -/
def mergeManifest {P : Type} (fs : List Char → Option (ImgT P))
    (convert : List Char → List Char → (ℕ → ℕ → P) → ℕ → ℕ → P)
    (resize : (ℕ → ℕ → P) → ℕ × ℕ → ℤ × ℤ → ℕ → ℕ → P)
    (bgOf : List Char → P)
    (rows : List MRow) (foldFilter : Option (List Char)) (background : Option P) :
    Except String (ℤ × ℤ × (ℕ → ℕ → P)) :=
  if rows.isEmpty then .error "Manifest is empty."
  else
    match selectRows rows foldFilter with
    | .error e => .error e
    | .ok sel =>
        match canvasScan sel (0, 0, none) with
        | .error e => .error e
        | .ok (mx, my, firstPath) =>
            match firstPath with
            | none => .error "No valid image paths found in manifest column."
            | some p =>
                match fs p with
                | none => .error "FileNotFoundError"
                | some t0 =>
                    let target := targetModeOf t0.mode
                    let bg := resolvedBg background bgOf target
                    let canvas := sel.foldl (pasteRow fs convert resize target)
                      (fun _ _ => bg)
                    .ok (mx, my, canvas)

/-- C8 counterexample.  A manifest header with x0, y0, w, h and the
path column t2_path — exactly the header split_large_image itself
writes for the T2 folder — is rejected by _read_manifest, although the
spec's schema (any of the accepted path-column names) accepts it:
_REQUIRED_COLS hard-codes t1_path regardless of the column argument. -/
theorem C8_schema_cx :
    exOk (readManifestCheck ["x0", "y0", "w", "h", "t2_path"]) = false ∧
    specSchemaOk ["x0", "y0", "w", "h", "t2_path"] = true := by
  exact ⟨rfl, rfl⟩

/-- C8 amended.  merge_tiles_from_manifest (via _read_manifest)
requires exactly the five columns x0, y0, w, h and t1_path — the
literal name t1_path, whatever path column the caller passes — and its
missing-columns error is raised if and only if one of those five is
absent from the header. -/
theorem C8_requires_literal_t1_path (header : List String) :
    exOk (readManifestCheck header) = true ↔ ∀ c ∈ requiredCols, c ∈ header := by
  unfold readManifestCheck
  by_cases hemp : (requiredCols.filter fun c => !(header.contains c)).isEmpty
  · rw [if_pos hemp]
    simp only [exOk, true_iff]
    intro c hc
    rw [List.isEmpty_iff, List.filter_eq_nil_iff] at hemp
    have := hemp c hc
    simp only [Bool.not_eq_true', Bool.not_eq_false] at this
    exact List.elem_iff.1 this
  · rw [if_neg hemp]
    simp only [exOk, Bool.false_eq_true, false_iff]
    intro hall
    apply hemp
    rw [List.isEmpty_iff, List.filter_eq_nil_iff]
    intro c hc
    simp only [Bool.not_eq_true', Bool.not_eq_false]
    exact List.elem_iff.2 (hall c hc)

theorem canvasScan_error_of_bad {r : MRow} {sel : List MRow}
    (hr : r ∈ sel) (hg : rowGeom r = none) (acc : ℤ × ℤ × Option (List Char)) :
    exOk (canvasScan sel acc) = false := by
  induction sel generalizing acc with
  | nil => cases hr
  | cons g gs ih =>
      rcases List.mem_cons.1 hr with rfl | hmem
      · simp only [canvasScan, hg]
        rfl
      · cases hq : rowGeom g with
        | none =>
            simp only [canvasScan, hq]
            rfl
        | some v =>
            obtain ⟨x0, y0, w, h⟩ := v
            simp only [canvasScan, hq]
            exact ih hmem _

/-- A numeric row whose tile file exists. -/
def rowGood : MRow := ⟨some 0, some 0, some 1, some 1, "a.png".data, "train".data⟩

/-- A row whose x0 cell is non-numeric. -/
def rowBadGeom : MRow := ⟨none, some 0, some 1, some 1, "b.png".data, "train".data⟩

/-- A numeric row whose tile file does not exist on disk. -/
def rowMissing : MRow := ⟨some 2, some 0, some 1, some 1, "zz.png".data, "train".data⟩

/-- A 1 by 1 RGB tile with sample 7. -/
def tileSmall : ImgT ℚ := ⟨1, 1, "RGB".data, fun _ _ => 7⟩

/-- A filesystem holding exactly one tile file, a.png. -/
def fsOneTile : List Char → Option (ImgT ℚ) :=
  fun p => if p = "a.png".data then some tileSmall else none

/-- Identity resize (used where pixel content is irrelevant). -/
def rzId {P : Type} : (ℕ → ℕ → P) → ℕ × ℕ → ℤ × ℤ → ℕ → ℕ → P :=
  fun p _ _ => p

/-- C7 counterexample.  A manifest with one good row and one row whose
x0 is non-numeric makes the WHOLE merge fail with the
x0/y0/w/h-must-be-numeric error: the bad row is not skipped, because
the canvas-size loop parses every selected row before any pasting. -/
theorem C7_nonnumeric_row_fatal_cx :
    mergeManifest fsOneTile convId rzId (fun _ => (0 : ℚ))
        [rowGood, rowBadGeom] none none =
      .error "Manifest x0/y0/w/h must be numeric." ∧
    exOk (mergeManifest fsOneTile convId rzId (fun _ => (0 : ℚ))
        [rowGood, rowBadGeom] none none) = false := ⟨rfl, rfl⟩

/-- C7 amended.  In merge_tiles_from_manifest, rows with an empty or
unresolvable path are skipped at paste time and never abort the merge,
PROVIDED every selected row's geometry is numeric and the first
nonempty path resolves (it is opened for mode inference); a row with
non-numeric x0/y0/w/h geometry is NOT skipped: it makes the whole
operation fail in the canvas-size loop. -/
theorem C7_unresolvable_skipped_nonnumeric_fatal {P : Type}
    (fs : List Char → Option (ImgT P))
    (convert : List Char → List Char → (ℕ → ℕ → P) → ℕ → ℕ → P)
    (resize : (ℕ → ℕ → P) → ℕ × ℕ → ℤ × ℤ → ℕ → ℕ → P)
    (bgOf : List Char → P) :
    (∀ (rows : List MRow) (ff : Option (List Char)) (bgp : Option P)
        (sel : List MRow) (mx my : ℤ) (p : List Char) (t0 : ImgT P),
        selectRows rows ff = .ok sel →
        canvasScan sel (0, 0, none) = .ok (mx, my, some p) →
        fs p = some t0 →
        exOk (mergeManifest fs convert resize bgOf rows ff bgp) = true) ∧
    (∀ (rows : List MRow) (ff : Option (List Char)) (bgp : Option P)
        (sel : List MRow) (r : MRow),
        selectRows rows ff = .ok sel → r ∈ sel → rowGeom r = none →
        exOk (mergeManifest fs convert resize bgOf rows ff bgp) = false) := by
  constructor
  · intro rows ff bgp sel mx my p t0 hsel hscan hfs
    have hne : rows.isEmpty = false := by
      cases rows with
      | cons g gs => rfl
      | nil =>
          cases ff with
          | none =>
              simp only [selectRows, Except.ok.injEq] at hsel
              subst hsel
              simp only [canvasScan, Except.ok.injEq, Prod.mk.injEq] at hscan
              exact absurd hscan.2.2 (by simp)
          | some f =>
              simp only [selectRows, List.filter_nil, List.isEmpty_nil,
                if_pos] at hsel
              cases hsel
    simp only [mergeManifest, hne, Bool.false_eq_true, if_false, hsel, hscan, hfs]
    rfl
  · intro rows ff bgp sel r hsel hr hg
    have hbad := canvasScan_error_of_bad hr hg (0, 0, none)
    have hne : rows.isEmpty = false := by
      cases rows with
      | cons g gs => rfl
      | nil =>
          cases ff with
          | none =>
              simp only [selectRows, Except.ok.injEq] at hsel
              subst hsel
              cases hr
          | some f =>
              simp only [selectRows, List.filter_nil, List.isEmpty_nil,
                if_pos] at hsel
              cases hsel
    simp only [mergeManifest, hne, Bool.false_eq_true, if_false, hsel]
    cases hcs : canvasScan sel (0, 0, none) with
    | error e => rfl
    | ok v =>
        rw [hcs] at hbad
        simp [exOk] at hbad

/-- Witness for C7 amended: the skip part at a two-row manifest whose
second row's file zz.png does not exist (the merge still succeeds),
and the fatal part at the counterexample manifest. -/
theorem C7_unresolvable_skipped_nonnumeric_fatal_witness :
    (selectRows [rowGood, rowMissing] none = .ok [rowGood, rowMissing] ∧
     canvasScan [rowGood, rowMissing] (0, 0, none) = .ok (3, 1, some "a.png".data) ∧
     fsOneTile "a.png".data = some tileSmall ∧
     rowBadGeom ∈ [rowGood, rowBadGeom] ∧ rowGeom rowBadGeom = none) ∧
    (exOk (mergeManifest fsOneTile convId rzId (fun _ => (0 : ℚ))
        [rowGood, rowMissing] none none) = true ∧
     exOk (mergeManifest fsOneTile convId rzId (fun _ => (0 : ℚ))
        [rowGood, rowBadGeom] none none) = false) :=
  ⟨⟨rfl, rfl, rfl, List.mem_cons_of_mem _ (List.mem_cons_self _ _), rfl⟩,
    (C7_unresolvable_skipped_nonnumeric_fatal fsOneTile convId rzId
        (fun _ => (0 : ℚ))).1
      [rowGood, rowMissing] none none [rowGood, rowMissing] 3 1 "a.png".data
      tileSmall rfl rfl rfl,
    (C7_unresolvable_skipped_nonnumeric_fatal fsOneTile convId rzId
        (fun _ => (0 : ℚ))).2
      [rowGood, rowBadGeom] none none [rowGood, rowBadGeom] rowBadGeom rfl
      (List.mem_cons_of_mem _ (List.mem_cons_self _ _)) rfl⟩

/-- Whether the paste loop actually pastes a row: nonempty stripped
path, the file exists, and the geometry parses. -/
def rowPastes {P : Type} (fs : List Char → Option (ImgT P)) (r : MRow) : Bool :=
  !(pyStrip r.path).isEmpty && (fs (pyStrip r.path)).isSome && (rowGeom r).isSome

/-- The pixel region a row's geometry covers. -/
def rowRegion (r : MRow) (rr cc : ℕ) : Prop :=
  ∃ x0 y0 w h, rowGeom r = some (x0, y0, w, h) ∧
    x0 ≤ (cc : ℤ) ∧ (cc : ℤ) < x0 + w ∧ y0 ≤ (rr : ℤ) ∧ (rr : ℤ) < y0 + h

theorem pasteRow_untouched {P : Type} (fs : List Char → Option (ImgT P))
    (convert : List Char → List Char → (ℕ → ℕ → P) → ℕ → ℕ → P)
    (resize : (ℕ → ℕ → P) → ℕ × ℕ → ℤ × ℤ → ℕ → ℕ → P)
    (target : List Char) (canvas : ℕ → ℕ → P) (r : MRow) (rr cc : ℕ)
    (h : rowPastes fs r = false ∨ ¬ rowRegion r rr cc) :
    pasteRow fs convert resize target canvas r rr cc = canvas rr cc := by
  simp only [pasteRow]
  split
  · rfl
  · rename_i hemp
    cases hfs : fs (pyStrip r.path) with
    | none => rfl
    | some t =>
        cases hg : rowGeom r with
        | none => rfl
        | some v =>
            obtain ⟨x0, y0, w, hh⟩ := v
            have hp : rowPastes fs r = true := by
              simp [rowPastes, hfs, hg]
              simpa using hemp
            rcases h with hfalse | hreg
            · rw [hp] at hfalse
              cases hfalse
            · dsimp only
              rw [if_neg (fun hcond => hreg ⟨x0, y0, w, hh, hg, hcond⟩)]

theorem foldl_pasteRow_untouched {P : Type} (fs : List Char → Option (ImgT P))
    (convert : List Char → List Char → (ℕ → ℕ → P) → ℕ → ℕ → P)
    (resize : (ℕ → ℕ → P) → ℕ × ℕ → ℤ × ℤ → ℕ → ℕ → P)
    (target : List Char) (l : List MRow) (init : ℕ → ℕ → P) (rr cc : ℕ)
    (h : ∀ r ∈ l, rowPastes fs r = false ∨ ¬ rowRegion r rr cc) :
    (l.foldl (pasteRow fs convert resize target) init) rr cc = init rr cc := by
  induction l generalizing init with
  | nil => rfl
  | cons g gs ih =>
      simp only [List.foldl]
      rw [ih _ (fun r hr => h r (List.mem_cons_of_mem _ hr))]
      exact pasteRow_untouched fs convert resize target init g rr cc
        (h g (List.mem_cons_self _ _))

theorem canvasScan_ok_bounds :
    ∀ (l : List MRow) (acc : ℤ × ℤ × Option (List Char)) {mx my : ℤ}
      {fp : Option (List Char)},
      canvasScan l acc = .ok (mx, my, fp) →
      acc.1 ≤ mx ∧ acc.2.1 ≤ my ∧
      ∀ r ∈ l, ∀ x0 y0 w h, rowGeom r = some (x0, y0, w, h) →
        x0 + w ≤ mx ∧ y0 + h ≤ my := by
  intro l
  induction l with
  | nil =>
      intro acc mx my fp h
      simp only [canvasScan, Except.ok.injEq] at h
      subst h
      exact ⟨le_rfl, le_rfl, fun r hr => absurd hr (List.not_mem_nil r)⟩
  | cons g gs ih =>
      intro acc mx my fp h
      simp only [canvasScan] at h
      cases hq : rowGeom g with
      | none =>
          rw [hq] at h
          cases h
      | some v =>
          obtain ⟨x0, y0, w, hg⟩ := v
          rw [hq] at h
          have hrec := ih _ h
          refine ⟨le_trans (le_max_left _ _) hrec.1,
                  le_trans (le_max_left _ _) hrec.2.1, ?_⟩
          intro r hr x0' y0' w' h' hgeom
          rcases List.mem_cons.1 hr with rfl | hmem
          · rw [hq] at hgeom
            simp only [Option.some.injEq, Prod.mk.injEq] at hgeom
            obtain ⟨rfl, rfl, rfl, rfl⟩ := hgeom
            exact ⟨le_trans (le_max_right _ _) hrec.1,
                   le_trans (le_max_right _ _) hrec.2.1⟩
          · exact hrec.2.2 r hmem x0' y0' w' h' hgeom

theorem canvasScan_ok_attained :
    ∀ (l : List MRow) (acc : ℤ × ℤ × Option (List Char)) {mx my : ℤ}
      {fp : Option (List Char)},
      canvasScan l acc = .ok (mx, my, fp) →
      (mx = acc.1 ∨ ∃ r ∈ l, ∃ x0 y0 w h,
        rowGeom r = some (x0, y0, w, h) ∧ x0 + w = mx) ∧
      (my = acc.2.1 ∨ ∃ r ∈ l, ∃ x0 y0 w h,
        rowGeom r = some (x0, y0, w, h) ∧ y0 + h = my) := by
  intro l
  induction l with
  | nil =>
      intro acc mx my fp h
      simp only [canvasScan, Except.ok.injEq] at h
      subst h
      exact ⟨Or.inl rfl, Or.inl rfl⟩
  | cons g gs ih =>
      intro acc mx my fp h
      simp only [canvasScan] at h
      cases hq : rowGeom g with
      | none =>
          rw [hq] at h
          cases h
      | some v =>
          obtain ⟨x0, y0, w, hg⟩ := v
          rw [hq] at h
          have hrec := ih _ h
          constructor
          · rcases hrec.1 with heq | ⟨r, hr, x0', y0', w', h', hgeom, hval⟩
            · rcases max_choice acc.1 (x0 + w) with hmax | hmax
              · exact Or.inl (by rw [heq]; exact hmax)
              · exact Or.inr ⟨g, List.mem_cons_self _ _, x0, y0, w, hg, hq,
                  by rw [heq]; exact hmax.symm ▸ rfl⟩
            · exact Or.inr ⟨r, List.mem_cons_of_mem _ hr, x0', y0', w', h', hgeom, hval⟩
          · rcases hrec.2 with heq | ⟨r, hr, x0', y0', w', h', hgeom, hval⟩
            · rcases max_choice acc.2.1 (y0 + hg) with hmax | hmax
              · exact Or.inl (by rw [heq]; exact hmax)
              · exact Or.inr ⟨g, List.mem_cons_self _ _, x0, y0, w, hg, hq,
                  by rw [heq]; exact hmax.symm ▸ rfl⟩
            · exact Or.inr ⟨r, List.mem_cons_of_mem _ hr, x0', y0', w', h', hgeom, hval⟩

/-- C10.  In merge_tiles_from_manifest the canvas dimensions are the
maxima of (x0 + w, y0 + h) over EVERY selected row — the canvas-size
loop never consults the filesystem, so rows whose image file does not
exist still enlarge the canvas — rows are excluded only at paste time,
and any pixel no pasted row covers (in particular the region of a
missing-file row not covered by others) keeps the background fill. -/
theorem C10_missing_rows_shape_canvas {P : Type}
    (fs : List Char → Option (ImgT P))
    (convert : List Char → List Char → (ℕ → ℕ → P) → ℕ → ℕ → P)
    (resize : (ℕ → ℕ → P) → ℕ × ℕ → ℤ × ℤ → ℕ → ℕ → P)
    (bgOf : List Char → P)
    (rows : List MRow) (ff : Option (List Char)) (bgp : Option P)
    (sel : List MRow) (mx my : ℤ) (canvas : ℕ → ℕ → P)
    (hsel : selectRows rows ff = .ok sel)
    (hok : mergeManifest fs convert resize bgOf rows ff bgp = .ok (mx, my, canvas)) :
    (∃ fp, canvasScan sel (0, 0, none) = .ok (mx, my, fp)) ∧
    (∀ r ∈ sel, ∀ x0 y0 w h, rowGeom r = some (x0, y0, w, h) →
      x0 + w ≤ mx ∧ y0 + h ≤ my) ∧
    ((mx = 0 ∨ ∃ r ∈ sel, ∃ x0 y0 w h,
        rowGeom r = some (x0, y0, w, h) ∧ x0 + w = mx) ∧
     (my = 0 ∨ ∃ r ∈ sel, ∃ x0 y0 w h,
        rowGeom r = some (x0, y0, w, h) ∧ y0 + h = my)) ∧
    (∃ p t0, fs p = some t0 ∧
      ∀ rr cc, (∀ r ∈ sel, rowPastes fs r = false ∨ ¬ rowRegion r rr cc) →
        canvas rr cc = resolvedBg bgp bgOf (targetModeOf t0.mode)) := by
  have hne : rows.isEmpty = false := by
    cases rows with
    | cons g gs => rfl
    | nil => simp [mergeManifest] at hok
  simp only [mergeManifest, hne, Bool.false_eq_true, if_false, hsel] at hok
  cases hcs : canvasScan sel (0, 0, none) with
  | error e =>
      rw [hcs] at hok
      cases hok
  | ok v =>
      obtain ⟨mx', my', fp⟩ := v
      rw [hcs] at hok
      dsimp only at hok
      cases fp with
      | none => cases hok
      | some p =>
          dsimp only at hok
          cases hfs : fs p with
          | none =>
              rw [hfs] at hok
              cases hok
          | some t0 =>
              rw [hfs] at hok
              simp only [Except.ok.injEq, Prod.mk.injEq] at hok
              obtain ⟨h1, h2, h3⟩ := hok
              subst h1
              subst h2
              have hb := canvasScan_ok_bounds sel (0, 0, none) hcs
              have ha := canvasScan_ok_attained sel (0, 0, none) hcs
              refine ⟨⟨some p, rfl⟩,
                fun r hr x0 y0 w h hg => hb.2.2 r hr x0 y0 w h hg, ha, ?_⟩
              refine ⟨p, t0, hfs, fun rr cc hun => ?_⟩
              rw [← h3]
              exact foldl_pasteRow_untouched fs convert resize
                (targetModeOf t0.mode) sel _ rr cc hun

/-- Witness for C10 at a two-row manifest whose second row points at a
nonexistent file zz.png: the merge succeeds with canvas width
max(0+1, 2+1) = 3 (the missing row enlarged it), and pixels only that
row covers stay at the background 0. -/
theorem C10_missing_rows_shape_canvas_witness :
    ∃ canvas,
      (selectRows [rowGood, rowMissing] none = .ok [rowGood, rowMissing] ∧
       mergeManifest fsOneTile convId rzId (fun _ => (0 : ℚ))
          [rowGood, rowMissing] none none = .ok (3, 1, canvas)) ∧
      ((∀ r ∈ [rowGood, rowMissing], ∀ x0 y0 w h,
          rowGeom r = some (x0, y0, w, h) → x0 + w ≤ 3 ∧ y0 + h ≤ 1) ∧
       ∃ p t0, fsOneTile p = some t0 ∧
         ∀ rr cc, (∀ r ∈ [rowGood, rowMissing],
              rowPastes fsOneTile r = false ∨ ¬ rowRegion r rr cc) →
           canvas rr cc = resolvedBg none (fun _ => (0 : ℚ)) (targetModeOf t0.mode)) := by
  refine ⟨_, ⟨rfl, rfl⟩, ?_⟩
  have h := C10_missing_rows_shape_canvas fsOneTile convId rzId (fun _ => (0 : ℚ))
    [rowGood, rowMissing] none none [rowGood, rowMissing] 3 1 _ rfl rfl
  exact ⟨h.2.1, h.2.2.2⟩

/-! C2: the split/folder-merge round trip.  Split-side pipeline of
split_large_image for one tile (app/splitter.py lines 256-282). -/

/-- Model of the extension normalization at the top of
_ensure_format_compat (app/splitter.py line 89). -/
def normExt (e : List Char) : List Char :=
  if e.take 1 = ".".data then pyLower e else '.' :: e

/-- Model of _ensure_format_compat (app/splitter.py lines 82-107):
JPEG/WEBP require 1 or 3 channels, PNG/TIFF at most 4; a violation is
truncated under policy auto (with an advisory note) or raised under any
other policy; 2-D arrays pass through. -/
def ensureFormatCompat (a : NpArr) (extension : List Char) (policy : List Char) :
    Except String (NpArr × Option (List Char)) :=
  let ext := normExt extension
  if a.is3D then
    if ext = ".jpg".data ∨ ext = ".jpeg".data ∨ ext = ".webp".data then
      if a.C = 1 ∨ a.C = 3 then .ok (a, none)
      else if policy = "auto".data then
        .ok ({ a with C := 3 }, some "Incompatible channels; using first 3 channels.".data)
      else .error "Incompatible channels for extension."
    else if ext = ".png".data ∨ ext = ".tif".data ∨ ext = ".tiff".data then
      if 4 < a.C then
        if policy = "auto".data then
          .ok ({ a with C := 4 }, some "Channels >4 may fail; using first 4.".data)
        else .error "Too many channels for saver."
      else .ok (a, none)
    else .ok (a, none)
  else .ok (a, none)

/-- The tile filename split_large_image produces with the default
pattern: pat.format(i=i) raises KeyError on the default pattern (caught
and ignored), then {base}_tile_{y}_{x} is rendered and the extension is
appended because the rendered name does not end with it. -/
def renderTileName (base : List Char) (y x : ℕ) (ext : List Char) : List Char :=
  base ++ "_tile_".data ++ natStr y ++ "_".data ++ natStr x ++ ext

/-- Model of np.array(im.crop((x, y, x2, y2))): the sub-array of the
source raster at the given box. -/
def cropArr (S : NpArr) (b : Box) : NpArr :=
  ⟨b.y1 - b.y0, b.x1 - b.x0, S.is3D, S.C, S.u8,
   fun r c ch => S.px (b.y0 + r) (b.x0 + c) ch⟩

/-- Model of _extract_crop_as_uint8 (app/splitter.py lines 122-151):
crop, the two band-selection stages, then normalization. -/
def extractCropAsU8 (S : NpArr) (b : Box) (sel : Option (List ℤ))
    (nmode : String) : Except String NpArr :=
  (bandStages (cropArr S b) sel).map (fun a => normalizeToU8 a nmode)

/-- One loop iteration of split_large_image for the primary raster
(app/splitter.py lines 262-282): extract the crop, reconcile with the
output format, render the filename, save.  The lossless save/decode
round trip is the identity on the array, so the produced tile file is
the array itself with its name and mode label. -/
def tileOfBox (S : NpArr) (modeLabel base : List Char) (sel : Option (List ℤ))
    (nmode : String) (b : Box) : Except String (FTile (ℕ → ℚ)) :=
  match extractCropAsU8 S b sel nmode with
  | .error e => .error e
  | .ok arr =>
      match ensureFormatCompat arr ".png".data "auto".data with
      | .error e => .error e
      | .ok (arr2, _) =>
          .ok ⟨renderTileName base b.y0 b.x0 ".png".data, arr2.W, arr2.H,
            modeLabel, fun r c ch => arr2.px r c ch⟩

/-- Model of the tile-producing part of split_large_image with
extension .png and policy auto: the grid from tile_size and
overlap_pct, then one tile file per box, errors propagating (a
primary-tile failure is fatal). -/
def splitFolderE (S : NpArr) (modeLabel base : List Char) (tile_size : ℕ)
    (pct : ℚ) (sel : Option (List ℤ)) (nmode : String) :
    Except String (List (FTile (ℕ → ℚ))) :=
  (splitCoords S.H S.W tile_size (stepPx tile_size (overlapPx tile_size pct))).mapM
    (tileOfBox S modeLabel base sel nmode)

/-- The tile file produced for a box when the whole pipeline is the
identity (uint8 input, no band selection, clip mode, png target). -/
def mkTile (S : NpArr) (modeLabel base : List Char) (b : Box) : FTile (ℕ → ℚ) :=
  ⟨renderTileName base b.y0 b.x0 ".png".data, b.x1 - b.x0, b.y1 - b.y0, modeLabel,
   fun r c ch => S.px (b.y0 + r) (b.x0 + c) ch⟩

theorem overlapPx_zero (ts : ℕ) : overlapPx ts 0 = 0 := by
  unfold overlapPx
  have h : (ts : ℚ) * 0 / 100 = 0 := by norm_num
  rw [h]
  unfold pyRound
  norm_num

theorem stepPx_overlap_zero (ts : ℕ) : stepPx ts (overlapPx ts 0) = ts := by
  rw [overlapPx_zero]
  rfl

theorem splitFolderE_zero (S : NpArr) (modeLabel base : List Char) (ts : ℕ)
    (sel : Option (List ℤ)) (nmode : String) :
    splitFolderE S modeLabel base ts 0 sel nmode =
      (splitCoords S.H S.W ts ts).mapM (tileOfBox S modeLabel base sel nmode) := by
  unfold splitFolderE
  rw [stepPx_overlap_zero]

theorem bandStages_none (a : NpArr) : bandStages a none = .ok a := by
  unfold bandStages pilStage arrStage
  exact ite_self _

theorem normalizeToU8_u8 (a : NpArr) (nmode : String) (hu8 : a.u8 = true) :
    normalizeToU8 a nmode = a := by
  unfold normalizeToU8
  rw [hu8]
  rfl

theorem extractCropAsU8_identity (S : NpArr) (b : Box) (nmode : String)
    (hu8 : S.u8 = true) :
    extractCropAsU8 S b none nmode = .ok (cropArr S b) := by
  unfold extractCropAsU8
  rw [bandStages_none]
  simp only [Except.map]
  rw [normalizeToU8_u8 _ _ (by simp [cropArr, hu8])]

theorem ensureFormatCompat_png (a : NpArr) (hC : a.is3D = true → a.C ≤ 4) :
    ensureFormatCompat a ".png".data "auto".data = .ok (a, none) := by
  simp only [ensureFormatCompat]
  cases h3 : a.is3D with
  | false => simp
  | true =>
      have hc4 := hC h3
      rw [if_pos rfl]
      rw [if_neg (by decide : ¬ (normExt ['.', 'p', 'n', 'g'] = ['.', 'j', 'p', 'g'] ∨
        normExt ['.', 'p', 'n', 'g'] = ['.', 'j', 'p', 'e', 'g'] ∨
        normExt ['.', 'p', 'n', 'g'] = ['.', 'w', 'e', 'b', 'p']))]
      rw [if_pos (by decide : (normExt ['.', 'p', 'n', 'g'] = ['.', 'p', 'n', 'g'] ∨
        normExt ['.', 'p', 'n', 'g'] = ['.', 't', 'i', 'f'] ∨
        normExt ['.', 'p', 'n', 'g'] = ['.', 't', 'i', 'f', 'f']))]
      rw [if_neg (not_lt.2 hc4)]

theorem tileOfBox_identity (S : NpArr) (modeLabel base : List Char) (b : Box)
    (hu8 : S.u8 = true) (hC : S.is3D = true → S.C ≤ 4) :
    tileOfBox S modeLabel base none "clip" b = .ok (mkTile S modeLabel base b) := by
  unfold tileOfBox
  rw [extractCropAsU8_identity S b "clip" hu8]
  dsimp only
  rw [ensureFormatCompat_png (cropArr S b) (by simpa [cropArr] using hC)]
  rfl

theorem mapM_ok_of_forall {α β : Type} {f : α → Except String β} {g : α → β} :
    ∀ {l : List α}, (∀ x ∈ l, f x = .ok (g x)) → l.mapM f = .ok (l.map g) := by
  intro l
  induction l with
  | nil => intro _; rfl
  | cons a as ih =>
      intro h
      rw [List.mapM_cons, h a (List.mem_cons_self _ _),
        ih (fun x hx => h x (List.mem_cons_of_mem _ hx))]
      rfl

theorem splitFolderE_identity (S : NpArr) (modeLabel base : List Char) (ts : ℕ)
    (hu8 : S.u8 = true) (hC : S.is3D = true → S.C ≤ 4) :
    splitFolderE S modeLabel base ts 0 none "clip" =
      .ok ((splitCoords S.H S.W ts ts).map (mkTile S modeLabel base)) := by
  rw [splitFolderE_zero]
  exact mapM_ok_of_forall (fun b _ => tileOfBox_identity S modeLabel base b hu8 hC)

/-! Facts about decimal rendering and the filename parser. -/

theorem digitChar_toNat {d : ℕ} (hd : d < 10) : (digitChar d).toNat = 48 + d := by
  interval_cases d <;> decide

theorem digitChar_isDigit {d : ℕ} (hd : d < 10) : (digitChar d).isDigit = true := by
  interval_cases d <;> decide

theorem digitsVal_append_one (l : List Char) (c : Char) :
    digitsVal (l ++ [c]) = digitsVal l * 10 + (c.toNat - 48) := by
  unfold digitsVal
  rw [List.foldl_append]
  rfl

theorem natStrAux_spec : ∀ fuel n, n < fuel →
    natStrAux fuel n ≠ [] ∧ (∀ c ∈ natStrAux fuel n, c.isDigit = true) ∧
    digitsVal (natStrAux fuel n) = n := by
  intro fuel
  induction fuel with
  | zero => intro n hn; omega
  | succ f ih =>
      intro n hn
      by_cases h10 : n < 10
      · simp only [natStrAux, if_pos h10]
        refine ⟨by simp, ?_, ?_⟩
        · intro c hc
          rw [List.mem_singleton] at hc
          subst hc
          exact digitChar_isDigit h10
        · show digitsVal ([] ++ [digitChar n]) = n
          rw [digitsVal_append_one, digitChar_toNat h10]
          simp [digitsVal]
      · simp only [natStrAux, if_neg h10]
        have hdiv : n / 10 < f := by
          have h1 : n / 10 < n := Nat.div_lt_self (by omega) (by omega)
          omega
        obtain ⟨hne, hdig, hval⟩ := ih (n / 10) hdiv
        refine ⟨by simp, ?_, ?_⟩
        · intro c hc
          rcases List.mem_append.1 hc with hc1 | hc2
          · exact hdig c hc1
          · rw [List.mem_singleton] at hc2
            subst hc2
            exact digitChar_isDigit (Nat.mod_lt n (by omega))
        · rw [digitsVal_append_one, hval, digitChar_toNat (Nat.mod_lt n (by omega))]
          have := Nat.div_add_mod n 10
          omega

theorem natStr_ne_nil (n : ℕ) : natStr n ≠ [] :=
  (natStrAux_spec (n + 1) n (Nat.lt_succ_self n)).1

theorem natStr_digits (n : ℕ) : ∀ c ∈ natStr n, c.isDigit = true :=
  (natStrAux_spec (n + 1) n (Nat.lt_succ_self n)).2.1

theorem digitsVal_natStr (n : ℕ) : digitsVal (natStr n) = n :=
  (natStrAux_spec (n + 1) n (Nat.lt_succ_self n)).2.2

theorem takeWhile_cons_pos {p : Char → Bool} {a : Char} {l : List Char}
    (h : p a = true) : (a :: l).takeWhile p = a :: l.takeWhile p := by
  simp [List.takeWhile_cons, h]

theorem takeWhile_cons_neg {p : Char → Bool} {a : Char} {l : List Char}
    (h : p a = false) : (a :: l).takeWhile p = [] := by
  simp [List.takeWhile_cons, h]

theorem dropWhile_cons_pos {p : Char → Bool} {a : Char} {l : List Char}
    (h : p a = true) : (a :: l).dropWhile p = l.dropWhile p := by
  simp [List.dropWhile_cons, h]

theorem dropWhile_cons_neg {p : Char → Bool} {a : Char} {l : List Char}
    (h : p a = false) : (a :: l).dropWhile p = a :: l := by
  simp [List.dropWhile_cons, h]

theorem takeWhile_append_of_all {p : Char → Bool} :
    ∀ {l1 l2 : List Char}, (∀ a ∈ l1, p a = true) →
    (l1 ++ l2).takeWhile p = l1 ++ l2.takeWhile p := by
  intro l1
  induction l1 with
  | nil => intro l2 _; rfl
  | cons a as ih =>
      intro l2 h
      rw [List.cons_append, takeWhile_cons_pos (h a (List.mem_cons_self _ _)),
        ih (fun b hb => h b (List.mem_cons_of_mem _ hb)), List.cons_append]

theorem dropWhile_append_of_all {p : Char → Bool} :
    ∀ {l1 l2 : List Char}, (∀ a ∈ l1, p a = true) →
    (l1 ++ l2).dropWhile p = l2.dropWhile p := by
  intro l1
  induction l1 with
  | nil => intro l2 _; rfl
  | cons a as ih =>
      intro l2 h
      rw [List.cons_append, dropWhile_cons_pos (h a (List.mem_cons_self _ _)),
        ih (fun b hb => h b (List.mem_cons_of_mem _ hb))]

theorem parseYX_suffix (pre ys xs : List Char)
    (hysne : ys ≠ []) (hysd : ∀ c ∈ ys, c.isDigit = true)
    (hxsne : xs ≠ []) (hxsd : ∀ c ∈ xs, c.isDigit = true) :
    parseYX (pre ++ '_' :: (ys ++ '_' :: (xs ++ ['.', 'p', 'n', 'g']))) =
      some (digitsVal xs, digitsVal ys) := by
  have hrev : (pre ++ '_' :: (ys ++ '_' :: (xs ++ ['.', 'p', 'n', 'g']))).reverse
      = 'g' :: 'n' :: 'p' :: '.' :: (xs.reverse ++ '_' :: (ys.reverse ++ '_' :: pre.reverse)) := by
    simp [List.reverse_append, List.reverse_cons, List.append_assoc]
  have hxd : ∀ a ∈ xs.reverse, Char.isDigit a = true :=
    fun a ha => hxsd a (List.mem_reverse.1 ha)
  have hyd : ∀ a ∈ ys.reverse, Char.isDigit a = true :=
    fun a ha => hysd a (List.mem_reverse.1 ha)
  simp only [parseYX]
  rw [hrev]
  rw [takeWhile_cons_pos (by decide), takeWhile_cons_pos (by decide),
    takeWhile_cons_pos (by decide), takeWhile_cons_neg (by decide)]
  rw [dropWhile_cons_pos (by decide), dropWhile_cons_pos (by decide),
    dropWhile_cons_pos (by decide), dropWhile_cons_neg (by decide)]
  rw [if_neg (by decide)]
  dsimp only
  rw [if_pos rfl]
  rw [takeWhile_append_of_all hxd, takeWhile_cons_neg (by decide), List.append_nil]
  rw [dropWhile_append_of_all hxd, dropWhile_cons_neg (by decide)]
  rw [if_neg (fun h => hxsne (List.reverse_eq_nil_iff.1 h))]
  dsimp only
  rw [if_pos rfl]
  rw [takeWhile_append_of_all hyd, takeWhile_cons_neg (by decide), List.append_nil]
  rw [dropWhile_append_of_all hyd, dropWhile_cons_neg (by decide)]
  rw [if_neg (fun h => hysne (List.reverse_eq_nil_iff.1 h))]
  dsimp only
  rw [if_pos rfl]
  rw [List.reverse_reverse, List.reverse_reverse]

theorem parseYX_render (base : List Char) (y x : ℕ) :
    parseYX (renderTileName base y x ".png".data) = some (x, y) := by
  have hsh : renderTileName base y x ".png".data =
      (base ++ "_tile".data) ++ '_' :: (natStr y ++ '_' :: (natStr x ++ ['.', 'p', 'n', 'g'])) := by
    show base ++ "_tile_".data ++ natStr y ++ "_".data ++ natStr x ++ ".png".data = _
    rw [show ("_tile_".data : List Char) = "_tile".data ++ ['_'] from rfl,
      show ("_".data : List Char) = ['_'] from rfl,
      show ((".png".data : List Char)) = ['.', 'p', 'n', 'g'] from rfl]
    simp [List.append_assoc]
  rw [hsh, parseYX_suffix (base ++ "_tile".data) (natStr y) (natStr x)
    (natStr_ne_nil y) (natStr_digits y) (natStr_ne_nil x) (natStr_digits x),
    digitsVal_natStr, digitsVal_natStr]

theorem isImageName_render (base : List Char) (y x : ℕ) :
    isImageName (renderTileName base y x ".png".data) = true := by
  have hmap : List.map Char.toLower ['.', 'p', 'n', 'g'] = ['.', 'p', 'n', 'g'] := by decide
  have hsuf : (['.', 'p', 'n', 'g'] : List Char) <:+
      pyLower (renderTileName base y x ".png".data) := by
    refine ⟨List.map Char.toLower
      (base ++ "_tile_".data ++ natStr y ++ "_".data ++ natStr x), ?_⟩
    rw [← hmap, ← List.map_append]
    rfl
  have h1 : endsWithB (pyLower (renderTileName base y x ".png".data)) ".png".data = true :=
    decide_eq_true hsuf
  simp [isImageName, imageExts, h1]

theorem grid_min_eq {ts W k : ℕ} (hts : 0 < ts) (hW : 0 < W)
    (ha : W ≤ ts ∨ ts ∣ W) (hlt : k * ts < W) :
    min (k * ts + ts) W - k * ts = min ts W ∧ k * ts + min ts W ≤ W := by
  rcases ha with hle | hdvd
  · have hk0 : k * ts = 0 := by
      by_contra h
      have hk : 0 < k := by
        rcases Nat.eq_zero_or_pos k with h0 | h1
        · rw [h0, Nat.zero_mul] at h; omega
        · exact h1
      have h2 : ts ≤ k * ts := Nat.le_mul_of_pos_left ts hk
      omega
    rw [hk0, Nat.zero_add, Nat.sub_zero, Nat.min_eq_right hle, Nat.zero_add]
    exact ⟨rfl, le_rfl⟩
  · obtain ⟨m, rfl⟩ := hdvd
    have hm : 0 < m := by
      rcases Nat.eq_zero_or_pos m with h0 | h1
      · rw [h0, Nat.mul_zero] at hW; omega
      · exact h1
    have hk : k < m := by
      by_contra h
      push_neg at h
      have h1 : ts * m ≤ ts * k := Nat.mul_le_mul_left ts h
      have h2 : ts * k = k * ts := Nat.mul_comm ts k
      omega
    have hstep : k * ts + ts ≤ ts * m := by
      have h1 : (k + 1) * ts ≤ m * ts := Nat.mul_le_mul_right ts hk
      have h2 : (k + 1) * ts = k * ts + ts := Nat.succ_mul k ts
      have h3 : m * ts = ts * m := Nat.mul_comm m ts
      omega
    have hts_le : ts ≤ ts * m := Nat.le_mul_of_pos_right ts hm
    rw [Nat.min_eq_left hstep, Nat.min_eq_left hts_le]
    omega

theorem grid_attained {ts W : ℕ} (hts : 0 < ts) (hW : 0 < W)
    (ha : W ≤ ts ∨ ts ∣ W) :
    (W - min ts W) ∈ pyRangeStep W ts ∧ (W - min ts W) + min ts W = W := by
  rcases ha with hle | hdvd
  · rw [Nat.min_eq_right hle, Nat.sub_self]
    refine ⟨(mem_pyRangeStep hts).2 ⟨0, (Nat.zero_mul ts).symm, ?_⟩, by omega⟩
    rw [Nat.zero_mul]
    exact hW
  · obtain ⟨m, rfl⟩ := hdvd
    have hm : 0 < m := by
      rcases Nat.eq_zero_or_pos m with h0 | h1
      · rw [h0, Nat.mul_zero] at hW; omega
      · exact h1
    have hts_le : ts ≤ ts * m := Nat.le_mul_of_pos_right ts hm
    have hsub : ts * m - ts = (m - 1) * ts := by
      rw [Nat.sub_mul, Nat.one_mul, Nat.mul_comm m ts]
    rw [Nat.min_eq_left hts_le]
    refine ⟨(mem_pyRangeStep hts).2 ⟨m - 1, hsub, ?_⟩, by omega⟩
    omega

theorem estFold_le {P : Type} (tw th : ℕ) (B1 B2 : ℤ) :
    ∀ (l : List (FTile P)) (acc : ℤ × ℤ),
    (∀ f ∈ l, ∀ x y : ℕ, parseYX f.name = some (x, y) →
      (x : ℤ) + tw ≤ B1 ∧ (y : ℤ) + th ≤ B2) →
    acc.1 ≤ B1 → acc.2 ≤ B2 →
    (estFold tw th l acc).1 ≤ B1 ∧ (estFold tw th l acc).2 ≤ B2 := by
  intro l
  induction l with
  | nil => intro acc _ h1 h2; exact ⟨h1, h2⟩
  | cons f rest ih =>
      intro acc hall h1 h2
      simp only [estFold]
      cases hp : parseYX f.name with
      | none => exact ih acc (fun g hg => hall g (List.mem_cons_of_mem _ hg)) h1 h2
      | some xy =>
          obtain ⟨x, y⟩ := xy
          obtain ⟨hx, hy⟩ := hall f (List.mem_cons_self _ _) x y hp
          exact ih _ (fun g hg => hall g (List.mem_cons_of_mem _ hg))
            (max_le h1 hx) (max_le h2 hy)

theorem pasteTile_eval {P : Type}
    (convert : List Char → List Char → (ℕ → ℕ → P) → ℕ → ℕ → P)
    (target : List Char) (canvas : ℕ → ℕ → P) (f : FTile P) {x y : ℕ}
    (hp : parseYX f.name = some (x, y)) (hm : f.mode = target) (rr cc : ℕ) :
    pasteTile convert target canvas f rr cc =
      (if y ≤ rr ∧ rr < y + f.h ∧ x ≤ cc ∧ cc < x + f.w
       then f.px (rr - y) (cc - x) else canvas rr cc) := by
  simp only [pasteTile, hp]
  rw [if_pos hm]

theorem foldl_pasteTile_value {P : Type}
    (convert : List Char → List Char → (ℕ → ℕ → P) → ℕ → ℕ → P)
    (target : List Char) (good : ℕ → ℕ → P) :
    ∀ (l : List (FTile P)) (cv : ℕ → ℕ → P) (r c : ℕ),
    (∀ f ∈ l, ∃ x y : ℕ, parseYX f.name = some (x, y) ∧ f.mode = target ∧
      ∀ rr cc, f.px rr cc = good (y + rr) (x + cc)) →
    (∃ f ∈ l, ∃ x y : ℕ, parseYX f.name = some (x, y) ∧
      y ≤ r ∧ r < y + f.h ∧ x ≤ c ∧ c < x + f.w) →
    (l.foldl (pasteTile convert target) cv) r c = good r c := by
  intro l
  induction l using List.reverseRecOn with
  | nil =>
      intro cv r c _ hcov
      obtain ⟨f, hf, _⟩ := hcov
      exact absurd hf (List.not_mem_nil f)
  | append_singleton l0 g ih =>
      intro cv r c hall hcov
      obtain ⟨xg, yg, hpg, hmg, hpxg⟩ :=
        hall g (List.mem_append_right _ (List.mem_singleton_self g))
      rw [List.foldl_append, List.foldl_cons, List.foldl_nil,
        pasteTile_eval convert target _ g hpg hmg r c]
      by_cases hgcov : yg ≤ r ∧ r < yg + g.h ∧ xg ≤ c ∧ c < xg + g.w
      · rw [if_pos hgcov, hpxg]
        have h1 : yg + (r - yg) = r := by omega
        have h2 : xg + (c - xg) = c := by omega
        rw [h1, h2]
      · rw [if_neg hgcov]
        apply ih cv r c (fun f hf => hall f (List.mem_append_left _ hf))
        obtain ⟨f, hf, xf, yf, hpf, hc1, hc2, hc3, hc4⟩ := hcov
        rcases List.mem_append.1 hf with hf1 | hf2
        · exact ⟨f, hf1, xf, yf, hpf, hc1, hc2, hc3, hc4⟩
        · exfalso
          rw [List.mem_singleton] at hf2
          subst hf2
          rw [hpg, Option.some.injEq, Prod.mk.injEq] at hpf
          obtain ⟨rfl, rfl⟩ := hpf
          exact hgcov ⟨hc1, hc2, hc3, hc4⟩

/-- A 3 by 3 uint8 single-band source raster: its side is neither at
most the tile size 2 nor divisible by it. -/
def srcS : NpArr := ⟨3, 3, false, 1, true, fun _ _ _ => 0⟩

/-- C2 counterexample.  Splitting a 3 by 3 uint8 raster with
tile_size = 2 and overlap_pct = 0 yields four tiles, the boundary ones
only 1 pixel wide or tall; merge_tiles then reuses the FIRST tile's
2 by 2 size for every filename-matched tile, so the merged canvas is
4 by 4, not the original 3 by 3: the round-trip does not reproduce the
original dimensions. -/
theorem C2_roundtrip_dims_cx :
    splitFolderE srcS "L".data "t".data 2 0 none "clip" =
      .ok ((splitCoords 3 3 2 2).map (mkTile srcS "L".data "t".data)) ∧
    mergeDimsF (mergeTilesF convId (fun _ _ => (0 : ℚ))
      ((splitCoords 3 3 2 2).map (mkTile srcS "L".data "t".data))) = (4, 4) ∧
    mergeDimsF (mergeTilesF convId (fun _ _ => (0 : ℚ))
      ((splitCoords 3 3 2 2).map (mkTile srcS "L".data "t".data))) ≠
      ((srcS.W : ℤ), (srcS.H : ℤ)) :=
  ⟨splitFolderE_identity srcS "L".data "t".data 2 rfl (by decide),
   by decide, by decide⟩

/-- C2 amended.  The split/merge round trip is dimension- and
pixel-exact exactly when the grid is aligned: for a uint8 raster
(normalize_mode "clip", no band selection, png tiles, at most 4
channels, a PIL mode that is its own merge target) with overlap_pct 0
and each of W and H either at most tile_size or divisible by
tile_size, merge_tiles on the split tiles returns an image of exactly
(W, H), and every pixel of the canvas inside the raster equals the
source pixel.  (Without the alignment hypothesis the dimensions are
generally wrong, as the counterexample shows, because
_estimate_canvas_size reuses the first tile's size for every tile.) -/
theorem C2_roundtrip_aligned (S : NpArr) (modeLabel base : List Char) (ts : ℕ)
    (convert : List Char → List Char → (ℕ → ℕ → (ℕ → ℚ)) → ℕ → ℕ → (ℕ → ℚ))
    (bgOf : List Char → ℕ → ℚ)
    (hts : 0 < ts) (hH : 0 < S.H) (hW : 0 < S.W)
    (hu8 : S.u8 = true) (hC : S.is3D = true → S.C ≤ 4)
    (hmt : targetModeOf modeLabel = modeLabel)
    (hWa : S.W ≤ ts ∨ ts ∣ S.W) (hHa : S.H ≤ ts ∨ ts ∣ S.H)
    (tiles : List (FTile (ℕ → ℚ)))
    (htiles : splitFolderE S modeLabel base ts 0 none "clip" = .ok tiles) :
    ∃ canvas, mergeTilesF convert bgOf tiles =
      .ok ((S.W : ℤ), (S.H : ℤ), canvas) ∧
      ∀ r c ch, r < S.H → c < S.W → canvas r c ch = S.px r c ch := by
  have h2 := splitFolderE_identity S modeLabel base ts hu8 hC
  rw [htiles] at h2
  have heq := Except.ok.inj h2
  subst heq
  have hfacts : ∀ f ∈ (splitCoords S.H S.W ts ts).map (mkTile S modeLabel base),
      ∃ x y : ℕ, parseYX f.name = some (x, y) ∧ f.w = min ts S.W ∧
        f.h = min ts S.H ∧ f.mode = modeLabel ∧
        x + min ts S.W ≤ S.W ∧ y + min ts S.H ≤ S.H ∧
        ∀ rr cc, f.px rr cc = fun ch => S.px (y + rr) (x + cc) ch := by
    intro f hf
    obtain ⟨b, hb, rfl⟩ := List.mem_map.1 hf
    obtain ⟨y, hy, x, hx, rfl⟩ := mem_splitCoords.1 hb
    obtain ⟨ky, hkyeq, hky⟩ := (mem_pyRangeStep hts).1 hy
    obtain ⟨kx, hkxeq, hkx⟩ := (mem_pyRangeStep hts).1 hx
    subst hkyeq
    subst hkxeq
    obtain ⟨hw1, hw2⟩ := grid_min_eq hts hW hWa hkx
    obtain ⟨hh1, hh2⟩ := grid_min_eq hts hH hHa hky
    exact ⟨kx * ts, ky * ts, parseYX_render base (ky * ts) (kx * ts),
      hw1, hh1, rfl, hw2, hh2, fun rr cc => rfl⟩
  have hfilter : ((splitCoords S.H S.W ts ts).map (mkTile S modeLabel base)).filter
      (fun f => isImageName f.name) =
      (splitCoords S.H S.W ts ts).map (mkTile S modeLabel base) := by
    apply List.filter_eq_self.2
    intro f hf
    obtain ⟨b, hb, rfl⟩ := List.mem_map.1 hf
    exact isImageName_render base b.y0 b.x0
  cases hfs : sortTiles (((splitCoords S.H S.W ts ts).map (mkTile S modeLabel base)).filter
      fun f => isImageName f.name) with
  | nil =>
      exfalso
      have hb0 : (⟨0, 0, min (0 + ts) S.H, min (0 + ts) S.W⟩ : Box) ∈
          splitCoords S.H S.W ts ts := by
        apply mem_splitCoords.2
        refine ⟨0, (mem_pyRangeStep hts).2 ⟨0, (Nat.zero_mul ts).symm, ?_⟩,
          0, (mem_pyRangeStep hts).2 ⟨0, (Nat.zero_mul ts).symm, ?_⟩, rfl⟩
        · rw [Nat.zero_mul]; exact hH
        · rw [Nat.zero_mul]; exact hW
      have hm0 := List.mem_map_of_mem (mkTile S modeLabel base) hb0
      have hperm0 : List.Perm
          (sortTiles (((splitCoords S.H S.W ts ts).map (mkTile S modeLabel base)).filter
            fun f => isImageName f.name))
          (((splitCoords S.H S.W ts ts).map (mkTile S modeLabel base)).filter
            fun f => isImageName f.name) :=
        List.perm_insertionSort nameLe _
      rw [hfs, hfilter] at hperm0
      have := hperm0.symm.subset hm0
      exact List.not_mem_nil _ this
  | cons f0 rest =>
      have hperm : List.Perm (f0 :: rest)
          ((splitCoords S.H S.W ts ts).map (mkTile S modeLabel base)) := by
        have h1 : List.Perm
            (sortTiles (((splitCoords S.H S.W ts ts).map (mkTile S modeLabel base)).filter
              fun f => isImageName f.name))
            (((splitCoords S.H S.W ts ts).map (mkTile S modeLabel base)).filter
              fun f => isImageName f.name) :=
          List.perm_insertionSort nameLe _
        rw [hfs, hfilter] at h1
        exact h1
      have hf0 : f0 ∈ (splitCoords S.H S.W ts ts).map (mkTile S modeLabel base) :=
        hperm.subset (List.mem_cons_self f0 rest)
      obtain ⟨x0, y0, hp0, hw0, hh0, hm0, _, _, _⟩ := hfacts f0 hf0
      have hall : ∀ f ∈ f0 :: rest, ∀ x y : ℕ, parseYX f.name = some (x, y) →
          (x : ℤ) + f0.w ≤ (S.W : ℤ) ∧ (y : ℤ) + f0.h ≤ (S.H : ℤ) := by
        intro f hf x y hp
        obtain ⟨xf, yf, hpf, hwf, hhf, _, hxb, hyb, _⟩ := hfacts f (hperm.subset hf)
        rw [hpf, Option.some.injEq, Prod.mk.injEq] at hp
        obtain ⟨rfl, rfl⟩ := hp
        rw [hw0, hh0]
        constructor
        · exact_mod_cast hxb
        · exact_mod_cast hyb
      have hattW := grid_attained hts hW hWa
      have hattH := grid_attained hts hH hHa
      have hbmem : (⟨S.H - min ts S.H, S.W - min ts S.W,
          min ((S.H - min ts S.H) + ts) S.H, min ((S.W - min ts S.W) + ts) S.W⟩ : Box) ∈
          splitCoords S.H S.W ts ts :=
        mem_splitCoords.2 ⟨_, hattH.1, _, hattW.1, rfl⟩
      have htmem : mkTile S modeLabel base
          ⟨S.H - min ts S.H, S.W - min ts S.W,
            min ((S.H - min ts S.H) + ts) S.H, min ((S.W - min ts S.W) + ts) S.W⟩ ∈
          f0 :: rest :=
        hperm.mem_iff.2 (List.mem_map_of_mem _ hbmem)
      have hge := estFold_ge_mem f0.w f0.h htmem
        (parseYX_render base (S.H - min ts S.H) (S.W - min ts S.W)) ((0 : ℤ), (0 : ℤ))
      have hest : estFold f0.w f0.h (f0 :: rest) (0, 0) = ((S.W : ℤ), (S.H : ℤ)) := by
        have hub := estFold_le f0.w f0.h (S.W : ℤ) (S.H : ℤ) (f0 :: rest) (0, 0) hall
          (by simp) (by simp)
        have h1 := hge.1
        have h2 := hge.2
        rw [hw0] at h1
        rw [hh0] at h2
        have hWeq : ((S.W - min ts S.W : ℕ) : ℤ) + ((min ts S.W : ℕ) : ℤ) = (S.W : ℤ) := by
          exact_mod_cast hattW.2
        have hHeq : ((S.H - min ts S.H : ℕ) : ℤ) + ((min ts S.H : ℕ) : ℤ) = (S.H : ℤ) := by
          exact_mod_cast hattH.2
        have e1 : (estFold f0.w f0.h (f0 :: rest) (0, 0)).1 = (S.W : ℤ) := by omega
        have e2 : (estFold f0.w f0.h (f0 :: rest) (0, 0)).2 = (S.H : ℤ) := by omega
        rw [← e1, ← e2]
      have htgt : targetModeOf f0.mode = modeLabel := by rw [hm0, hmt]
      have hno : ¬ ((S.W : ℤ) = 0 ∨ (S.H : ℤ) = 0) := by omega
      have hmerge : mergeTilesF convert bgOf
          ((splitCoords S.H S.W ts ts).map (mkTile S modeLabel base)) =
          .ok ((S.W : ℤ), (S.H : ℤ),
            (f0 :: rest).foldl (pasteTile convert modeLabel) (fun _ _ => bgOf modeLabel)) := by
        simp only [mergeTilesF, hfs, hest, htgt]
        rw [if_neg hno]
      refine ⟨_, hmerge, ?_⟩
      intro r c ch hr hc
      have hallgood : ∀ f ∈ f0 :: rest, ∃ x y : ℕ, parseYX f.name = some (x, y) ∧
          f.mode = modeLabel ∧ ∀ rr cc, f.px rr cc =
            (fun a b => fun d => S.px a b d) (y + rr) (x + cc) := by
        intro f hf
        obtain ⟨xf, yf, hpf, _, _, hmf, _, _, hpx⟩ := hfacts f (hperm.subset hf)
        exact ⟨xf, yf, hpf, hmf, hpx⟩
      have hcov : ∃ f ∈ f0 :: rest, ∃ x y : ℕ, parseYX f.name = some (x, y) ∧
          y ≤ r ∧ r < y + f.h ∧ x ≤ c ∧ c < x + f.w := by
        obtain ⟨y, hy, hyr, hry⟩ := range_covers hts le_rfl hr
        obtain ⟨x, hx, hxc, hcx⟩ := range_covers hts le_rfl hc
        refine ⟨mkTile S modeLabel base ⟨y, x, min (y + ts) S.H, min (x + ts) S.W⟩,
          hperm.mem_iff.2 (List.mem_map_of_mem _ (mem_splitCoords.2 ⟨y, hy, x, hx, rfl⟩)),
          x, y, parseYX_render base y x, hyr, ?_, hxc, ?_⟩
        · show r < y + (min (y + ts) S.H - y)
          have hv2 : min (y + ts) S.H ≤ S.H := min_le_right _ _
          omega
        · show c < x + (min (x + ts) S.W - x)
          have hv2 : min (x + ts) S.W ≤ S.W := min_le_right _ _
          omega
      rw [foldl_pasteTile_value convert modeLabel (fun a b => fun d => S.px a b d)
        (f0 :: rest) (fun _ _ => bgOf modeLabel) r c hallgood hcov]

/-- A 2 by 2 uint8 single-band raster, aligned with tile_size 2. -/
def srcT : NpArr := ⟨2, 2, false, 1, true, fun _ _ _ => 1⟩

/-- Witness for C2 amended at a 2 by 2 raster split with tile_size 2. -/
theorem C2_roundtrip_aligned_witness :
    (0 < 2 ∧ 0 < srcT.H ∧ 0 < srcT.W ∧ srcT.u8 = true ∧
     (srcT.is3D = true → srcT.C ≤ 4) ∧ targetModeOf "L".data = "L".data ∧
     (srcT.W ≤ 2 ∨ 2 ∣ srcT.W) ∧ (srcT.H ≤ 2 ∨ 2 ∣ srcT.H) ∧
     splitFolderE srcT "L".data "t".data 2 0 none "clip" =
       .ok ((splitCoords srcT.H srcT.W 2 2).map (mkTile srcT "L".data "t".data))) ∧
    (∃ canvas, mergeTilesF convId (fun _ _ => (0 : ℚ))
        ((splitCoords srcT.H srcT.W 2 2).map (mkTile srcT "L".data "t".data)) =
        .ok ((srcT.W : ℤ), (srcT.H : ℤ), canvas) ∧
      ∀ r c ch, r < srcT.H → c < srcT.W → canvas r c ch = srcT.px r c ch) :=
  ⟨⟨by decide, by decide, by decide, rfl, by decide, by decide, by decide, by decide,
    splitFolderE_identity srcT "L".data "t".data 2 rfl (by decide)⟩,
   C2_roundtrip_aligned srcT "L".data "t".data 2 convId (fun _ _ => (0 : ℚ))
     (by decide) (by decide) (by decide) rfl (by decide) (by decide) (by decide) (by decide)
     ((splitCoords srcT.H srcT.W 2 2).map (mkTile srcT "L".data "t".data))
     (splitFolderE_identity srcT "L".data "t".data 2 rfl (by decide))⟩
